import Mathlib

/-!
# Verification of the gajana transaction pipeline core

Shallow embedding of the transaction reconciliation and categorization
pipeline (`src/transaction_matcher.py`, `src/categorizer.py`,
`src/transaction_processor.py`, `src/utils.py`) and proofs about it.

Modelling conventions:
* Python `float` values are modelled as `Rat` (all amounts occurring in the
  pipeline are decimal strings, on which parsing, subtraction, comparison
  with zero, and 2-decimal formatting are exact decimal operations).
* Python `dict` transaction records are modelled as structures whose fields
  are the required keys; cells of a pandas DataFrame are `Option String`
  (`none` models `pd.NA` / missing).
* `log_and_exit` (which calls `sys.exit`) is modelled as the `.error`
  constructor of `Except String`, carrying the logged message.
* `re.search` (the only unbounded external dependency of the categorizer)
  is taken as an explicit function parameter `regexSearch`; `none` models an
  `re.error` raised for an invalid pattern.
-/

namespace Gajana


/-! ## Characters and digit strings -/

/-- Value of a decimal digit character, as Python's `int` conversion inside
`float()` sees it (`'0'` = 48). -/
def charVal (c : Char) : Nat := c.toNat - 48

/-- The decimal digit character for `d` (meaningful for `d < 10`). -/
def digitChar (d : Nat) : Char := Char.ofNat (48 + d)

/-- Horner evaluation of a most-significant-first digit string. -/
def digitsToNat (cs : List Char) : Nat := cs.foldl (fun a c => 10 * a + charVal c) 0

/-- Least-significant-first decimal digits of `n`. -/
def natDigitsRev (n : Nat) : List Nat :=
  if h : n < 10 then [n]
  else n % 10 :: natDigitsRev (n / 10)
termination_by n
decreasing_by
  exact Nat.div_lt_self (by omega) (by omega)

/-- Decimal rendering of a natural number, most significant digit first
(the digits of Python's `str`/`format` output). -/
def renderNat (n : Nat) : List Char := ((natDigitsRev n).reverse).map digitChar

/-! ## Python `float()` on strings

A model of CPython `float(s)` restricted to finite decimal/scientific
notation: optional surrounding whitespace, optional sign, digits with an
optional decimal point, and an optional `e`/`E` exponent.  (`inf`, `nan`
and `_` digit separators are not modelled; no input in this development
uses them.)  `none` models `ValueError`. -/

/-- Whitespace characters stripped by Python's `float()` and `str.strip()`. -/
def isPyWs (c : Char) : Bool :=
  c = ' ' || c = '\t' || c = '\n' || c = '\r' || c = '\x0b' || c = '\x0c'

/-- Strip leading and trailing whitespace (Python `str.strip()`). -/
def stripWs (cs : List Char) : List Char :=
  ((cs.dropWhile isPyWs).reverse.dropWhile isPyWs).reverse

/-- Parse an unsigned mantissa: `digits [. digits]`, at least one digit. -/
def parseMantissa (cs : List Char) : Option Rat :=
  let ip := cs.takeWhile Char.isDigit
  let rest := cs.dropWhile Char.isDigit
  match rest with
  | [] => if ip = [] then none else some (digitsToNat ip)
  | '.' :: fr =>
    let fp := fr.takeWhile Char.isDigit
    let rest2 := fr.dropWhile Char.isDigit
    if rest2 = [] && !(ip = [] && fp = []) then
      some ((digitsToNat ip : Rat) + (digitsToNat fp : Rat) / (10 : Rat) ^ fp.length)
    else none
  | _ => none

/-- Parse an exponent part (after `e`/`E`): optional sign then digits. -/
def parseExp (cs : List Char) : Option Int :=
  match cs with
  | '+' :: ds => if ds ≠ [] ∧ ds.all Char.isDigit then some (digitsToNat ds) else none
  | '-' :: ds => if ds ≠ [] ∧ ds.all Char.isDigit then some (-(digitsToNat ds : Int)) else none
  | ds => if ds ≠ [] ∧ ds.all Char.isDigit then some (digitsToNat ds) else none

/-- Split a leading `+`/`-` sign off a numeric literal; `true` = negative. -/
def splitSign (cs : List Char) : Bool × List Char :=
  match cs with
  | [] => (false, [])
  | c :: r => if c = '+' then (false, r) else if c = '-' then (true, r) else (false, c :: r)

/-- Model of Python `float(s)` on a character list. -/
def pyFloatChars (cs : List Char) : Option Rat :=
  let body := splitSign (stripWs cs)
  let neg := body.1
  let mant := body.2.takeWhile (fun c => c != 'e' && c != 'E')
  let rest := body.2.dropWhile (fun c => c != 'e' && c != 'E')
  match rest with
  | [] => (parseMantissa mant).map (fun m => if neg then -m else m)
  | _ :: expPart =>
    match parseMantissa mant, parseExp expPart with
    | some m, some e => some (if neg then -(m * (10 : Rat) ^ e) else m * (10 : Rat) ^ e)
    | _, _ => none

/-- Model of Python `float(s)` on a string. -/
def pyFloat (s : String) : Option Rat := pyFloatChars s.data

/-! ## Two-decimal formatting (Python `f"{x:.2f}"`)

Python formats a float to two decimals by rounding half-to-even.  On the
rationals of this development the same rounding rule is applied exactly;
for amounts that are integer multiples of `1/100` (the only ones the
round-trip properties quantify over) no rounding happens at all, which
matches the float behaviour for all realistic magnitudes. -/

/-- Round to the nearest integer, ties to the even integer. -/
def roundHalfEven (q : Rat) : Int :=
  let f : Int := Int.floor q
  let frac : Rat := q - f
  if frac < 1 / 2 then f
  else if 1 / 2 < frac then f + 1
  else if f % 2 = 0 then f else f + 1

/-- The digit string `u.cc` for the non-negative hundredth count `m`. -/
def twoDecChars (m : Nat) : List Char :=
  renderNat (m / 100) ++ '.' :: [digitChar (m % 100 / 10), digitChar (m % 100 % 10)]

/-- Model of `f"{q:.2f}"`. -/
def formatTwoDec (q : Rat) : String :=
  let n : Int := roundHalfEven (q * 100)
  String.mk ((if q < 0 then ['-'] else []) ++ twoDecChars n.natAbs)

/-! ## `TransactionProcessor._parse_amount`

From `src/src/transaction_processor.py` lines 32-54.  The input is a cell
value: `none` models `None`/`pd.NA` (for which `pd.isna` is true), `some v`
a string.  `log_and_exit` (which logs critically and calls `sys.exit(1)`)
is modelled as `.error` carrying the logged message.  Python's
`str.replace(c, "")` for a single-character needle removes every occurrence
of that character. -/

/-- `str.replace(c, "")` for a one-character needle. -/
def removeAllChar (c : Char) (cs : List Char) : List Char := cs.filter (fun x => x != c)

/-- Python `needle in hay` on strings: contiguous subsequence test. -/
def containsSeq (needle : List Char) : List Char → Bool
  | [] => needle.isEmpty
  | c :: rest => needle.isPrefixOf (c :: rest) || containsSeq needle rest

/-- The message `log_and_exit` is called with for an unparsable amount. -/
def parseAmountErrMsg (v : String) : String := "Could not parse amount: '" ++ v ++ "'"

/-- The shared tail of `_parse_amount`: parse the transformed string as a
float; on `ValueError` fall into the `except` handler, which returns `0.0`
for the zero sentinels and otherwise calls `log_and_exit` (process
termination, modelled as `.error`).  For a string `value` only the string
members of the Python sentinel list `[0, 0.0, "0", "0.0", "", None]` can
compare `==`-equal. -/
def finishParse (v : String) (s : List Char) : Except String Rat :=
  match pyFloatChars s with
  | some q => .ok q
  | none => if v = "0" || v = "0.0" then .ok 0 else .error (parseAmountErrMsg v)

/-- The successive `s_val` transformations of `_parse_amount`: strip
whitespace; remove `,`, `₹`, `$`; rewrite `(x)` to `-x`; strip a trailing
`" Cr"`/`" CR"` (keep positive) or `" Dr"`/`" DR"` (negate); then, unless
the string contains `E+` (case-insensitive, which is handed to numeric
coercion as is), strip a trailing `%`.  The value fed to `float()` at
either `return` point. -/
def amountTransform (v : String) : List Char :=
  let s0 := removeAllChar '$' (removeAllChar '₹' (removeAllChar ',' (stripWs v.data)))
  let s1 :=
    if s0.head? = some '(' && s0.getLast? = some ')' then '-' :: (s0.drop 1).dropLast
    else s0
  let s2 :=
    if [' ', 'C', 'r'].isSuffixOf s1 || [' ', 'C', 'R'].isSuffixOf s1 then
      stripWs (s1.take (s1.length - 3))
    else if [' ', 'D', 'r'].isSuffixOf s1 || [' ', 'D', 'R'].isSuffixOf s1 then
      '-' :: stripWs (s1.take (s1.length - 3))
    else s1
  if containsSeq ['E', '+'] (s2.map Char.toUpper) then s2
  else if s2.getLast? = some '%' then s2.dropLast else s2

/-- Model of `TransactionProcessor._parse_amount`. -/
def parseAmount (value : Option String) : Except String Rat :=
  match value with
  | none => .ok 0
  | some v =>
    if v = "" then .ok 0
    else finishParse v (amountTransform v)

/-! ## Data model

Canonical transaction record (the six internal keys of
`INTERNAL_TXN_KEYS = ["date", "description", "amount", "category",
"remarks", "account"]`).  Python `datetime.datetime` values are
timezone-naive; we model the six time components. -/

structure DateTime where
  year : Nat
  month : Nat
  day : Nat
  hour : Nat
  minute : Nat
  second : Nat
deriving DecidableEq

/-- Zero-padded decimal rendering of width `w` (Python `%04d`-style). -/
def padNum (w n : Nat) : List Char :=
  let ds := renderNat n
  List.replicate (w - ds.length) '0' ++ ds

/-- Model of `datetime.strftime("%Y-%m-%d")`. -/
def formatDateYMD (d : DateTime) : String :=
  String.mk (padNum 4 d.year ++ '-' :: (padNum 2 d.month ++ '-' :: padNum 2 d.day))

/-- A canonical transaction record, as built by the standardization
pipeline: all six internal keys present and well-typed. -/
structure Txn where
  date : DateTime
  description : String
  amount : Rat
  category : String
  remarks : String
  account : String
deriving DecidableEq

/-! ## `TransactionMatcher.find_new_txns`

From `src/src/transaction_matcher.py`.  The sort key is
`itemgetter("date", "account", "amount", "description")`, compared the way
Python compares tuples: lexicographically, each component by its own order
(datetimes by time, strings by code points, floats numerically).  The
Python `KeyError`/exception skip paths cannot arise for well-typed records
(every `Txn` carries all four key fields), so they have no counterpart
here. -/

def dtCmp (a b : DateTime) : Ordering :=
  (compare a.year b.year).then ((compare a.month b.month).then
    ((compare a.day b.day).then ((compare a.hour b.hour).then
      ((compare a.minute b.minute).then (compare a.second b.second)))))

def ratCmp (a b : Rat) : Ordering :=
  if a < b then .lt else if a = b then .eq else .gt

/-- Code-point lexicographic comparison, as Python compares `str`. -/
def charsCmp : List Char → List Char → Ordering
  | [], [] => .eq
  | [], _ :: _ => .lt
  | _ :: _, [] => .gt
  | a :: as, b :: bs => (compare a.toNat b.toNat).then (charsCmp as bs)

def strCmp (a b : String) : Ordering := charsCmp a.data b.data

/-- `(date, account, amount, description) <= ...` as Python compares the
sort-key tuples. -/
def txnLe (a b : Txn) : Bool :=
  match dtCmp a.date b.date with
  | .lt => true
  | .gt => false
  | .eq =>
    match strCmp a.account b.account with
    | .lt => true
    | .gt => false
    | .eq =>
      match ratCmp a.amount b.amount with
      | .lt => true
      | .gt => false
      | .eq =>
        match strCmp a.description b.description with
        | .gt => false
        | _ => true

/-- `list.sort(key=itemgetter("date", "account", "amount", "description"))`:
Python's list sort is stable, as is `mergeSort`. -/
def sortTxns (l : List Txn) : List Txn := l.mergeSort txnLe

/-- The identity tuple
`(txn["date"].strftime("%Y-%m-%d"), txn["account"], f"{txn['amount']:.2f}",
txn["description"])`. -/
def txnKey (t : Txn) : String × String × String × String :=
  (formatDateYMD t.date, t.account, formatTwoDec t.amount, t.description)

/-- The identity-tuple type: `(date string, account, amount string,
description)`. -/
abbrev TxnId := String × String × String × String

/-- The candidate loop of `find_new_txns`: emit a candidate iff its id is
neither an old id nor already emitted (`processed_potential_ids`). -/
def dedupNew (oldIds processed : List TxnId) : List Txn → List Txn
  | [] => []
  | t :: ts =>
    if txnKey t ∉ oldIds ∧ txnKey t ∉ processed then
      t :: dedupNew oldIds (txnKey t :: processed) ts
    else dedupNew oldIds processed ts

/-- Model of `TransactionMatcher.find_new_txns`.  The Python function
mutates state: with a non-empty candidate list and an empty `old_txns`
list it sorts `all_potential_txns` *in place* and returns that same list
object, skipping the dedup loop entirely.  We therefore return the pair
`(return value, all_potential_txns after the call)`; `old_txns` is only
ever read.  The `old_txn_ids` Python set is modelled as a key list used
only for membership. -/
def findNewTxns (oldTxns allPotentialTxns : List Txn) : List Txn × List Txn :=
  if allPotentialTxns = [] then ([], allPotentialTxns)
  else if oldTxns = [] then (sortTxns allPotentialTxns, sortTxns allPotentialTxns)
  else
    (sortTxns (dedupNew (oldTxns.map txnKey) [] allPotentialTxns), allPotentialTxns)

/-- A sample canonical transaction (a debit on a bank account). -/
def sampleTxnA : Txn :=
  { date := ⟨2024, 1, 15, 0, 0, 0⟩, description := "ATM WDL", amount := -500,
    category := "Uncategorized", remarks := "", account := "bank-axis-karti" }

/-- A sample canonical transaction dated after `sampleTxnA`. -/
def sampleTxnB : Txn :=
  { date := ⟨2024, 2, 20, 0, 0, 0⟩, description := "Salary", amount := 1000,
    category := "Income", remarks := "", account := "bank-hdfc-karti" }

/-! ## Standardization: DataFrame model and amount computation

`src/src/transaction_processor.py`, `_standardize_parsed_df`.  A DataFrame
is a column-name list plus rows of `(column, cell)` pairs; a cell is
`none` for `pd.NA` (empty strings are replaced by `pd.NA` during table
construction) and `some s` for a string value. -/

abbrev Cell := Option String

abbrev DfRow := List (String × Cell)

/-- `row.get(col)` (and `row.get(col, default)` when the key is present):
the cell if the key exists, else `none` (Python `None`, for which
`pd.isna` is true). -/
def rowGet (r : DfRow) (c : String) : Cell :=
  match r.find? (fun p => p.1 == c) with
  | some p => p.2
  | none => none

/-- Python `str(cell)`: `str(pd.NA)` is the literal string `"<NA>"`. -/
def cellStr (c : Cell) : String :=
  match c with
  | none => "<NA>"
  | some s => s

/-- Python `str.strip()`. -/
def pyStrip (s : String) : String := String.mk (stripWs s.data)

/-- Python `str.lower()` (ASCII case mapping suffices for this data). -/
def pyLower (s : String) : String := String.mk (s.data.map Char.toLower)

/-- The sign test of `_standardize_parsed_df`:
`(not debit_value and pd.isna(r.get(amount_sign_col))) or
 (str(r.get(amount_sign_col, "")).strip().lower() == debit_value)`. -/
def signNegates (debitValue : String) (cell : Cell) : Bool :=
  (debitValue = "" && cell.isNone) || (pyLower (pyStrip (cellStr cell)) == debitValue)

/-- The guard `amount_sign_col and amount_sign_col in df.columns`:
a configured, non-empty sign-column name that is present in the table. -/
def signColActive (amountSignCol : Option String) (cols : List String) : Bool :=
  match amountSignCol with
  | some sc => sc ≠ "" && sc ∈ cols
  | none => false

/-- The amount-calculation step of `_standardize_parsed_df` (lines
251-276), applied to the date-filtered rows.  `.ok none` models
`logger.error(...); return None` (an empty result for the table, logged as
an error but not a process exit); `.error` models a `log_and_exit` raised
inside `_parse_amount`.  The second branch parses all amounts first and
then applies the sign pass, as the code does. -/
def computeAmounts (cols : List String) (rows : List DfRow) (amountSignCol : Option String)
    (debitValue : String) : Except String (Option (List Rat)) :=
  if "debit" ∈ cols ∧ "credit" ∈ cols then
    (rows.mapM (fun r => do
      pure ((← parseAmount (rowGet r "credit")) - (← parseAmount (rowGet r "debit"))))).map some
  else if "amount" ∈ cols ∧ signColActive amountSignCol cols = true then do
    let parsed ← rows.mapM (fun r => parseAmount (rowGet r "amount"))
    pure (some (List.zipWith
      (fun (r : DfRow) (a : Rat) =>
        if signNegates debitValue (rowGet r (amountSignCol.getD "")) then -a else a)
      rows parsed))
  else if "amount" ∈ cols then
    (rows.mapM (fun r => parseAmount (rowGet r "amount"))).map some
  else pure none

/-- Written from the words of claim C3 (spec §4.3 step 6), for comparison
with `computeAmounts`: branch (b) requires only that `amount_sign_col` is
*configured* (non-empty), not that the sign column is present in the
table, and negates exactly when the sign value (trimmed, case-folded)
equals `debit_value` or — when `debit_value` is empty — when the sign
value is absent. -/
def claimSignNegates (debitValue : String) (cell : Cell) : Bool :=
  match cell with
  | some s => pyLower (pyStrip s) == debitValue
  | none => debitValue == ""

/-- Written from the words of claim C3: `amount_sign_col` is configured. -/
def claimSignColConfigured (amountSignCol : Option String) : Bool :=
  match amountSignCol with
  | some sc => sc ≠ ""
  | none => false

/-- The amount computation as claim C3 states it. -/
def amountsPerClaim (cols : List String) (rows : List DfRow) (amountSignCol : Option String)
    (debitValue : String) : Except String (Option (List Rat)) :=
  if "debit" ∈ cols ∧ "credit" ∈ cols then
    (rows.mapM (fun r => do
      pure ((← parseAmount (rowGet r "credit")) - (← parseAmount (rowGet r "debit"))))).map some
  else if "amount" ∈ cols ∧ claimSignColConfigured amountSignCol = true then do
    let parsed ← rows.mapM (fun r => parseAmount (rowGet r "amount"))
    pure (some (List.zipWith
      (fun (r : DfRow) (a : Rat) =>
        if claimSignNegates debitValue (rowGet r (amountSignCol.getD "")) then -a else a)
      rows parsed))
  else if "amount" ∈ cols then
    (rows.mapM (fun r => parseAmount (rowGet r "amount"))).map some
  else pure none

/-- Claim C3 amended: branch (b) additionally requires the configured sign
column to be present in the table (`amount_sign_col in df.columns`); when
it is configured but absent, the amount is parsed with no sign correction
(branch (c)). -/
def amountsPerClaimAmended (cols : List String) (rows : List DfRow)
    (amountSignCol : Option String) (debitValue : String) :
    Except String (Option (List Rat)) :=
  if "debit" ∈ cols ∧ "credit" ∈ cols then
    (rows.mapM (fun r => do
      pure ((← parseAmount (rowGet r "credit")) - (← parseAmount (rowGet r "debit"))))).map some
  else if "amount" ∈ cols ∧ signColActive amountSignCol cols = true then do
    let parsed ← rows.mapM (fun r => parseAmount (rowGet r "amount"))
    pure (some (List.zipWith
      (fun (r : DfRow) (a : Rat) =>
        if claimSignNegates debitValue (rowGet r (amountSignCol.getD "")) then -a else a)
      rows parsed))
  else if "amount" ∈ cols then
    (rows.mapM (fun r => parseAmount (rowGet r "amount"))).map some
  else pure none

/-- C3 counterexample: with a table whose (renamed) columns are just
`["amount"]`, a configured `amount_sign_col = "sign"` that is *not* a
column of the table, and `debit_value = ""`, the claim's rule negates the
amount (the sign value is absent and `debit_value` is empty) while the
code takes the unsigned branch (the guard also requires
`amount_sign_col in df.columns`): 5 versus -5. -/
instance {ε α : Type} [DecidableEq ε] [DecidableEq α] : DecidableEq (Except ε α) := by
  intro a b
  cases a <;> cases b
  case error.error e f =>
    exact if h : e = f then isTrue (by rw [h]) else isFalse (fun hc => h (by injection hc))
  case error.ok e y => exact isFalse (fun hc => Except.noConfusion hc)
  case ok.error x f => exact isFalse (fun hc => Except.noConfusion hc)
  case ok.ok x y =>
    exact if h : x = y then isTrue (by rw [h]) else isFalse (fun hc => h (by injection hc))

/-! ## `Categorizer.categorize`

From `src/src/categorizer.py`.  `re.search(pattern, desc, re.IGNORECASE)`
is the one external dependency and is taken as an explicit parameter
`regexSearch : String → String → Option Bool`; `none` models a raised
`re.error` (handled by `log_and_exit`, i.e. `.error`), `some b` a
search result.  The malformed-rule paths guarded by `isinstance` checks
(`description` not a list, non-string `category`, missing record keys,
non-numeric `amount`) cannot arise for the well-typed `Matcher`/`Txn`
records of this embedding. -/

def DEFAULT_CATEGORY : String := "Uncategorized"

/-- A categorization rule (`matchers.json` entry).  Optional keys are
`Option`; `matcher.get("description", [])` and
`matcher.get("use_regex", False)` are defaulted fields;
`matcher.get("category", DEFAULT_CATEGORY)` keeps `category` optional. -/
structure Matcher where
  category : Option String := none
  description : List String := []
  debit : Option Bool := none
  account : Option String := none
  use_regex : Bool := false
deriving DecidableEq

/-- A single pattern test:
`if use_regex and re.search(...): ... elif pattern_str.lower() in txn_description: ...`
(when a regex does not match, the literal substring test still runs). -/
def patternMatches (regexSearch : String → String → Option Bool) (use_regex : Bool)
    (p desc : String) : Except String Bool :=
  if use_regex then
    match regexSearch p desc with
    | none => .error ("Invalid regex pattern in matcher: '" ++ p ++ "'")
    | some true => .ok true
    | some false => .ok (containsSeq (pyLower p).data desc.data)
  else .ok (containsSeq (pyLower p).data desc.data)

/-- The pattern loop: stop at the first matching pattern. -/
def anyPatternMatches (regexSearch : String → String → Option Bool) (use_regex : Bool)
    (ps : List String) (desc : String) : Except String Bool :=
  match ps with
  | [] => .ok false
  | p :: rest =>
    match patternMatches regexSearch use_regex p desc with
    | .error e => .error e
    | .ok true => .ok true
    | .ok false => anyPatternMatches regexSearch use_regex rest desc

/-- The two `continue` guards: debit/credit polarity mismatch, or account
substring (lowercased) not contained in the transaction's account. -/
def matcherSkips (m : Matcher) (is_debit : Bool) (acct : String) : Bool :=
  (match m.debit with
   | some b => b != is_debit
   | none => false) ||
  (match m.account with
   | some a => !(containsSeq (pyLower a).data acct.data)
   | none => false)

/-- Whether a rule's conditions match the transaction: not skipped, and
some description pattern matches. -/
def ruleMatches (regexSearch : String → String → Option Bool) (m : Matcher)
    (is_debit : Bool) (desc acct : String) : Except String Bool :=
  if matcherSkips m is_debit acct then .ok false
  else anyPatternMatches regexSearch m.use_regex m.description desc

/-- The rule loop for one transaction: the category of the first matching
rule (`none` when no rule matches). -/
def applyMatchers (regexSearch : String → String → Option Bool) (ms : List Matcher)
    (is_debit : Bool) (desc acct : String) : Except String (Option String) :=
  match ms with
  | [] => .ok none
  | m :: rest =>
    if matcherSkips m is_debit acct then applyMatchers regexSearch rest is_debit desc acct
    else
      match anyPatternMatches regexSearch m.use_regex m.description desc with
      | .error e => .error e
      | .ok true => .ok (some (m.category.getD DEFAULT_CATEGORY))
      | .ok false => applyMatchers regexSearch rest is_debit desc acct

/-- One transaction of the `categorize` loop: `txn["category"]` is first
reset to `DEFAULT_CATEGORY`, then overwritten by the first matching rule's
category; `is_debit = float(txn["amount"]) < 0`; description and account
are lowercased for matching. -/
def categorizeTxn (regexSearch : String → String → Option Bool) (ms : List Matcher)
    (t : Txn) : Except String Txn :=
  match applyMatchers regexSearch ms (decide (t.amount < 0)) (pyLower t.description)
      (pyLower t.account) with
  | .error e => .error e
  | .ok none => .ok { t with category := DEFAULT_CATEGORY }
  | .ok (some cat) => .ok { t with category := cat }

/-- Model of `Categorizer.categorize`.  An empty loaded rule list triggers
`log_and_exit` (process exit) before any transaction is processed. -/
def categorize (regexSearch : String → String → Option Bool) (ms : List Matcher)
    (txns : List Txn) : Except String (List Txn) :=
  if ms = [] then
    .error "No valid matchers loaded. Assigning default category to all transactions."
  else txns.mapM (categorizeTxn regexSearch ms)

/-- A rule matching debit transactions whose description contains "atm". -/
def matFood : Matcher := { category := some "Food", description := ["atm"], debit := some true }

/-- A rule matching transactions whose description contains "wdl". -/
def matCash : Matcher := { category := some "Cash", description := ["wdl"] }

/-! ## `parse_mixed_datetime` (DateParser)

From `src/src/utils.py` lines 37-87.  `datetime.strptime` is modelled for
the directives `%Y %m %d %H %M %S` (the ones exercised by the log config
and the claims) with Python's greedy 1-4 / 1-2 digit matching, whole-string
semantics (`strptime` raises on unconverted trailing data) and calendar
validation (`datetime()` rejects day-out-of-range, year 0, etc.).  The
`pd.to_datetime(..., dayfirst=True, errors="coerce")` fallback is an
external engine and is taken as a function parameter `inferDate`
(`none` models `NaT`).  The outer `except Exception: log_and_exit` path
guards only catastrophic parser failures and has no counterpart here. -/

/-- `datetime.strptime` accumulator, with Python's defaults
(year 1900, month 1, day 1, midnight). -/
structure StrpState where
  year : Nat := 1900
  month : Nat := 1
  day : Nat := 1
  hour : Nat := 0
  minute : Nat := 0
  second : Nat := 0
deriving DecidableEq

def isLeapYear (y : Nat) : Bool := (y % 4 = 0 && y % 100 ≠ 0) || y % 400 = 0

def daysInMonth (y m : Nat) : Nat :=
  if m = 2 then (if isLeapYear y then 29 else 28)
  else if m = 4 ∨ m = 6 ∨ m = 9 ∨ m = 11 then 30
  else 31

/-- Greedily take at most `k` leading digits. -/
def takeDigitsUpTo (k : Nat) (cs : List Char) : List Char × List Char :=
  match k, cs with
  | 0, cs => ([], cs)
  | _ + 1, [] => ([], [])
  | k + 1, c :: rest =>
    if c.isDigit then
      let p := takeDigitsUpTo k rest
      (c :: p.1, p.2)
    else ([], c :: rest)

/-- Run a format string against the input, accumulating date fields.
`none` models `ValueError` (no match, trailing data, or an unmodelled
directive). -/
def strptimeRun : List Char → List Char → StrpState → Option StrpState
  | [], [], st => some st
  | [], _ :: _, _ => none
  | ['%'], _, _ => none
  | '%' :: f :: fmtRest, input, st =>
    if f = '%' then
      match input with
      | c :: inputRest => if c = '%' then strptimeRun fmtRest inputRest st else none
      | [] => none
    else
      let width := if f = 'Y' then 4 else 2
      let p := takeDigitsUpTo width input
      if p.1 = [] then none
      else
        let v := digitsToNat p.1
        match f with
        | 'Y' => strptimeRun fmtRest p.2 { st with year := v }
        | 'm' => strptimeRun fmtRest p.2 { st with month := v }
        | 'd' => strptimeRun fmtRest p.2 { st with day := v }
        | 'H' => strptimeRun fmtRest p.2 { st with hour := v }
        | 'M' => strptimeRun fmtRest p.2 { st with minute := v }
        | 'S' => strptimeRun fmtRest p.2 { st with second := v }
        | _ => none
  | c :: fmtRest, i :: inputRest, st =>
    if c = i then strptimeRun fmtRest inputRest st else none
  | _ :: _, [], _ => none

/-- `datetime.strptime(input, fmt)`: run the format, then validate the
resulting calendar datetime. -/
def strptimeChars (input fmt : List Char) : Option DateTime :=
  match strptimeRun fmt input {} with
  | none => none
  | some st =>
    if 1 ≤ st.year ∧ st.year ≤ 9999 ∧ 1 ≤ st.month ∧ st.month ≤ 12 ∧
        1 ≤ st.day ∧ st.day ≤ daysInMonth st.year st.month ∧
        st.hour ≤ 23 ∧ st.minute ≤ 59 ∧ st.second ≤ 59 then
      some ⟨st.year, st.month, st.day, st.hour, st.minute, st.second⟩
    else none

/-- Characters removed by `str.strip("' ")`: quote and space. -/
def isQuoteSpace (c : Char) : Bool := c = '\'' || c = ' '

/-- `cleaned_str = str(date_str).strip("' ")`. -/
def stripQuoteSpace (cs : List Char) : List Char :=
  ((cs.dropWhile isQuoteSpace).reverse.dropWhile isQuoteSpace).reverse

/-- The explicit-format loop: first format that `strptime`-parses wins;
a `ValueError` means `continue`. -/
def tryFormats (cleaned : List Char) (formats : List String) : Option DateTime :=
  match formats with
  | [] => none
  | f :: rest =>
    match strptimeChars cleaned f.data with
    | some d => some d
    | none => tryFormats cleaned rest

/-- Model of `parse_mixed_datetime(logger, date_str, formats)`. -/
def parseMixedDatetime (inferDate : String → Option DateTime) (dateStr : Option String)
    (formats : List String) : Option DateTime :=
  match dateStr with
  | none => none
  | some s =>
    if s = "" then none
    else
      let cleaned := stripQuoteSpace s.data
      match tryFormats cleaned formats with
      | some d => some d
      | none => inferDate (String.mk cleaned)

/-! ## Storage formatting and the old-transaction loader

`_format_txns_for_storage` and `get_old_transactions` from
`src/src/transaction_processor.py`. -/

/-- The log sheet header (`EXPECTED_SHEET_COLUMNS` in `constants.py`). -/
def EXPECTED_SHEET_COLUMNS : List String :=
  ["Date", "Description", "Debit", "Credit", "Category", "Remarks", "Account"]

/-- Model of `_format_txns_for_storage`: date as `YYYY-MM-DD`, the amount
split into 2-decimal debit/credit string columns (debit for negative
amounts, credit for non-negative ones), empty strings elsewhere.  The
`except` fallback for non-numeric amounts cannot arise for well-typed
records. -/
def formatTxnsForStorage (txns : List Txn) : List (List String) :=
  txns.map (fun t =>
    let debit := if t.amount < 0 then formatTwoDec (-t.amount) else ""
    let credit := if t.amount < 0 then "" else formatTwoDec t.amount
    [formatDateYMD t.date, t.description, debit, credit, t.category, t.remarks, t.account])

/-- A record of `standardized_df.to_dict("records")`: the date is a parsed
datetime, the amount a float, and the text fields are `NaN` (`none`) when
the underlying cell was empty. -/
structure RecTxn where
  date : DateTime
  description : Option String
  amount : Rat
  category : Option String
  remarks : Option String
  account : Option String
deriving DecidableEq

/-- The sort key `itemgetter("date", "account", "amount", "description")`
on loaded records.  (When a text key is `NaN`, Python's comparison raises
`TypeError`, caught by the outer handler as `log_and_exit`; that path is
not exercised here, and `getD ""` is a neutral stand-in.) -/
def recLe (a b : RecTxn) : Bool :=
  match dtCmp a.date b.date with
  | .lt => true
  | .gt => false
  | .eq =>
    match strCmp (a.account.getD "") (b.account.getD "") with
    | .lt => true
    | .gt => false
    | .eq =>
      match ratCmp a.amount b.amount with
      | .lt => true
      | .gt => false
      | .eq =>
        match strCmp (a.description.getD "") (b.description.getD "") with
        | .gt => false
        | _ => true

/-- A pandas DataFrame: column labels plus rows of labelled cells. -/
structure Df where
  cols : List String
  rows : List DfRow

/-- The `rename_dict` construction: `current_columns_map` maps each
column's stripped-lowercased name to its stripped name (later columns
overwrite earlier ones, hence the `reverse` before lookup); each
`column_map` entry whose cleaned source key is found contributes
`(stripped original name, target)`; missing ones are logged and
skipped. -/
def buildRenameAssoc (columnMap : List (String × String)) (cols : List String) :
    List (String × String) :=
  let currentMap := (cols.map (fun c => (pyLower (pyStrip c), pyStrip c))).reverse
  columnMap.filterMap (fun p =>
    match currentMap.find? (fun q => q.1 == pyLower (pyStrip p.1)) with
    | some q => some (q.2, p.2)
    | none => none)

/-- `df.rename(columns=rename_dict)` on one label.  (Python dict semantics:
a later entry for the same original name wins; the log config has distinct
entries, and lookup-by-first on the built list is its model.)  A stripped
name that no longer equals the actual column label silently fails to
rename, as in pandas. -/
def renameCol (assoc : List (String × String)) (c : String) : String :=
  match assoc.find? (fun p => p.1 == c) with
  | some p => p.2
  | none => c

/-- `df.rename` applied to the whole table. -/
def renameDf (assoc : List (String × String)) (df : Df) : Df :=
  { cols := df.cols.map (renameCol assoc),
    rows := df.rows.map (fun r => r.map (fun p => (renameCol assoc p.1, p.2))) }

/-- A parsing profile as `_standardize_parsed_df` consumes it. -/
structure StdConfig where
  column_map : List (String × String)
  date_formats : List String := []
  amount_sign_col : Option String := none
  debit_value : String := ""

/-- The generic log-sheet config built inside `get_old_transactions`. -/
def logConfig : StdConfig :=
  { column_map := [("Date", "date"), ("Description", "description"),
      ("Category", "category"), ("Remarks", "remarks"), ("Account", "account"),
      ("Debit", "debit"), ("Credit", "credit")],
    date_formats := ["%Y-%m-%d"] }

/-- Model of `_standardize_parsed_df`: rename columns, parse dates
(dropping rows whose date fails to parse), compute amounts
(`computeAmounts`), stamp the account if one was supplied, and project
onto the six internal keys with defaults for missing columns.  `.ok none`
models `return None` (empty result for this table); `.error` models
`log_and_exit` (missing `date` column, or an unparsable amount). -/
def standardizeParsedDf (inferDate : String → Option DateTime) (df : Df) (config : StdConfig)
    (accountName : Option String) : Except String (Option (List RecTxn)) :=
  if df.rows = [] then .ok none
  else
    let renamed := renameDf (buildRenameAssoc config.column_map df.cols) df
    if "date" ∉ renamed.cols then
      .error "Standardized 'date' column not found. Cannot proceed."
    else
      let datedRows := renamed.rows.filterMap (fun r =>
        match parseMixedDatetime inferDate (rowGet r "date") config.date_formats with
        | some d => some (r, d)
        | none => none)
      if datedRows = [] then .ok none
      else
        match computeAmounts renamed.cols (datedRows.map (fun p => p.1))
            config.amount_sign_col (pyLower config.debit_value) with
        | .error e => .error e
        | .ok none => .ok none
        | .ok (some amounts) =>
          let colsAfter :=
            if accountName.isSome ∧ "account" ∉ renamed.cols then renamed.cols ++ ["account"]
            else renamed.cols
          .ok (some (List.zipWith
            (fun (rd : DfRow × DateTime) (a : Rat) =>
              { date := rd.2,
                description :=
                  if "description" ∈ colsAfter then rowGet rd.1 "description" else some "",
                amount := a,
                category :=
                  if "category" ∈ colsAfter then rowGet rd.1 "category"
                  else some DEFAULT_CATEGORY,
                remarks := if "remarks" ∈ colsAfter then rowGet rd.1 "remarks" else some "",
                account :=
                  match accountName with
                  | some acc => some acc
                  | none =>
                    if "account" ∈ colsAfter then rowGet rd.1 "account" else some "Unknown" })
            datedRows amounts))

/-- `df.replace("", pd.NA)` on a single cell. -/
def cellify (c : String) : Cell := if c = "" then none else some c

/-- Model of `get_old_transactions` as a function of the raw sheet data
(header row plus data rows): build the DataFrame (empty strings become
`pd.NA`, all-`NA` rows dropped), standardize under the generic log config,
convert to records and sort. -/
def getOldTransactions (inferDate : String → Option DateTime) (raw : List (List String)) :
    Except String (List RecTxn) :=
  -- `if not raw_data or len(raw_data) <= 1: return []`
  if raw.length ≤ 1 then .ok []
  else
    let header := raw.headD []
    let dataRows := raw.tail
    let rows0 := dataRows.map (fun r => header.zip (r.map cellify))
    let rows1 := rows0.filter (fun r => !(r.all (fun p => p.2.isNone)))
    if rows1 = [] then .ok []
    else
      match standardizeParsedDf inferDate { cols := header, rows := rows1 } logConfig none with
      | .error e => .error e
      | .ok none => .ok []
      | .ok (some recs) => .ok (recs.mergeSort recLe)

/-! ## Theorems -/

theorem natDigitsRev_lt (n : Nat) : ∀ d ∈ natDigitsRev n, d < 10 := by
  induction n using natDigitsRev.induct with
  | case1 n h =>
    rw [natDigitsRev, dif_pos h]
    intro d hd
    simp only [List.mem_singleton] at hd
    omega
  | case2 n h ih =>
    rw [natDigitsRev, dif_neg h]
    intro d hd
    rcases List.mem_cons.mp hd with h1 | h2
    · omega
    · exact ih d h2

theorem charVal_digitChar {d : Nat} (h : d < 10) : charVal (digitChar d) = d := by
  interval_cases d <;> rfl

theorem isDigit_digitChar {d : Nat} (h : d < 10) : (digitChar d).isDigit = true := by
  interval_cases d <;> rfl

theorem renderNat_digits (n : Nat) : ∀ c ∈ renderNat n, c.isDigit = true := by
  intro c hc
  rcases List.mem_map.mp hc with ⟨d, hd, rfl⟩
  exact isDigit_digitChar (natDigitsRev_lt n d (List.mem_reverse.mp hd))

theorem renderNat_ne_nil (n : Nat) : renderNat n ≠ [] := by
  unfold renderNat natDigitsRev
  split <;> simp

theorem renderNat_lt10 {n : Nat} (h : n < 10) : renderNat n = [digitChar n] := by
  unfold renderNat natDigitsRev
  rw [dif_pos h]
  rfl

theorem renderNat_ge10 {n : Nat} (h : ¬ n < 10) :
    renderNat n = renderNat (n / 10) ++ [digitChar (n % 10)] := by
  conv_lhs => unfold renderNat natDigitsRev
  rw [dif_neg h]
  simp [renderNat]

theorem digitsToNat_append_singleton (cs : List Char) (c : Char) :
    digitsToNat (cs ++ [c]) = 10 * digitsToNat cs + charVal c := by
  simp [digitsToNat, List.foldl_append]

theorem digitsToNat_renderNat (n : Nat) : digitsToNat (renderNat n) = n := by
  induction n using natDigitsRev.induct with
  | case1 n h =>
    rw [renderNat_lt10 h]
    simp [digitsToNat, charVal_digitChar h]
  | case2 n h ih =>
    rw [renderNat_ge10 h, digitsToNat_append_singleton, ih,
      charVal_digitChar (Nat.mod_lt _ (by omega))]
    omega

theorem roundHalfEven_intCast (n : Int) : roundHalfEven (n : Rat) = n := by
  unfold roundHalfEven
  norm_num

/-! ### Round-trip lemmas -/

theorem takeWhile_all {p : Char → Bool} {cs : List Char} (h : ∀ c ∈ cs, p c = true) :
    cs.takeWhile p = cs := by
  induction cs with
  | nil => rfl
  | cons c cs ih =>
    rw [List.takeWhile_cons, h c (by simp), if_pos rfl,
      ih (fun x hx => h x (by simp [hx]))]

theorem dropWhile_all {p : Char → Bool} {cs : List Char} (h : ∀ c ∈ cs, p c = true) :
    cs.dropWhile p = [] := by
  induction cs with
  | nil => rfl
  | cons c cs ih =>
    rw [List.dropWhile_cons, h c (by simp), if_pos rfl]
    exact ih (fun x hx => h x (by simp [hx]))

theorem takeWhile_append_not (p : Char → Bool) (xs ys : List Char) (y : Char)
    (hxs : ∀ c ∈ xs, p c = true) (hy : p y = false) :
    (xs ++ y :: ys).takeWhile p = xs ∧ (xs ++ y :: ys).dropWhile p = y :: ys := by
  induction xs with
  | nil => simp [List.takeWhile_cons, List.dropWhile_cons, hy]
  | cons x xs ih =>
    have hx : p x = true := hxs x (by simp)
    have := ih (fun c hc => hxs c (by simp [hc]))
    simp [List.takeWhile_cons, List.dropWhile_cons, hx, this.1, this.2]

theorem isDigit_not_pyWs {c : Char} (h : c.isDigit = true) : isPyWs c = false := by
  by_contra hws
  have hws' : isPyWs c = true := by revert hws; cases isPyWs c <;> simp
  simp only [isPyWs, Bool.or_eq_true, decide_eq_true_eq] at hws'
  rcases hws' with ((((h1 | h1) | h1) | h1) | h1) | h1 <;> subst h1 <;> simp at h

theorem isDigit_ne {c : Char} (k : Char) (h : c.isDigit = true) (hk : k.isDigit = false) :
    c ≠ k := by
  rintro rfl
  rw [h] at hk
  exact absurd hk (by decide)

theorem digit_notExpChar {c : Char} (h : c.isDigit = true) :
    (c != 'e' && c != 'E') = true := by
  have h1 : c ≠ 'e' := isDigit_ne 'e' h (by decide)
  have h2 : c ≠ 'E' := isDigit_ne 'E' h (by decide)
  simp [h1, h2]

theorem twoDecChars_ok (m : Nat) :
    ∀ c ∈ twoDecChars m, c.isDigit = true ∨ c = '.' := by
  intro c hc
  simp only [twoDecChars, List.mem_append, List.mem_cons] at hc
  rcases hc with h | h | h | h | h
  · exact Or.inl (renderNat_digits _ c h)
  · exact Or.inr h
  · exact Or.inl (h ▸ isDigit_digitChar (by omega))
  · exact Or.inl (h ▸ isDigit_digitChar (by omega))
  · simp at h

theorem stripWs_twoDec (m : Nat) : stripWs (twoDecChars m) = twoDecChars m := by
  have hnws : ∀ c ∈ twoDecChars m, isPyWs c = false := by
    intro c hc
    rcases twoDecChars_ok m c hc with h | h
    · exact isDigit_not_pyWs h
    · subst h; rfl
  have h1 : (twoDecChars m).dropWhile isPyWs = twoDecChars m := by
    cases he : twoDecChars m with
    | nil => rfl
    | cons c cs =>
      rw [List.dropWhile_cons, hnws c (by rw [he]; simp), if_neg (by simp)]
  unfold stripWs
  rw [h1]
  cases he : (twoDecChars m).reverse with
  | nil => simp [List.reverse_eq_nil_iff.mp he]
  | cons c cs =>
    rw [List.dropWhile_cons, hnws c (by rw [← List.mem_reverse, he]; simp),
      if_neg (by simp), ← he, List.reverse_reverse]

theorem splitSign_of_digit {c : Char} (h : c.isDigit = true) (r : List Char) :
    splitSign (c :: r) = (false, c :: r) := by
  have h1 : c ≠ '+' := isDigit_ne '+' h (by decide)
  have h2 : c ≠ '-' := isDigit_ne '-' h (by decide)
  simp [splitSign, h1, h2]

theorem parseMantissa_twoDec (m : Nat) :
    parseMantissa (twoDecChars m) = some ((m : Rat) / 100) := by
  have hdig : ∀ c ∈ renderNat (m / 100), Char.isDigit c = true := renderNat_digits _
  have hsplit := takeWhile_append_not Char.isDigit (renderNat (m / 100))
    [digitChar (m % 100 / 10), digitChar (m % 100 % 10)] '.' hdig (by decide)
  have hfr : ∀ c ∈ [digitChar (m % 100 / 10), digitChar (m % 100 % 10)], Char.isDigit c = true := by
    intro c hc
    simp only [List.mem_cons, List.not_mem_nil, or_false] at hc
    rcases hc with h | h <;> exact h ▸ isDigit_digitChar (by omega)
  unfold parseMantissa twoDecChars
  rw [hsplit.1, hsplit.2]
  simp only [takeWhile_all hfr, dropWhile_all hfr]
  rw [if_pos (by simp [renderNat_ne_nil])]
  congr 1
  have hd2 : digitsToNat [digitChar (m % 100 / 10), digitChar (m % 100 % 10)] = m % 100 := by
    simp only [digitsToNat, List.foldl_cons, List.foldl_nil,
      charVal_digitChar (show m % 100 / 10 < 10 by omega),
      charVal_digitChar (show m % 100 % 10 < 10 by omega)]
    omega
  rw [digitsToNat_renderNat, hd2]
  have h100 : 100 * (m / 100) + m % 100 = m := Nat.div_add_mod m 100
  have hm : (100 : Rat) * ((m / 100 : Nat) : Rat) + ((m % 100 : Nat) : Rat) = (m : Rat) := by
    exact_mod_cast congrArg (fun k : Nat => (k : Rat)) h100
  field_simp
  norm_num
  linarith [hm]

theorem pyFloatChars_twoDec (m : Nat) :
    pyFloatChars (twoDecChars m) = some ((m : Rat) / 100) := by
  have hne := renderNat_ne_nil (m / 100)
  obtain ⟨c, cs, hc⟩ : ∃ c cs, renderNat (m / 100) = c :: cs := by
    cases h : renderNat (m / 100) with
    | nil => exact absurd h hne
    | cons c cs => exact ⟨c, cs, rfl⟩
  have hchead : c.isDigit = true := renderNat_digits _ c (by rw [hc]; simp)
  have hall : ∀ x ∈ twoDecChars m, (x != 'e' && x != 'E') = true := by
    intro x hx
    rcases twoDecChars_ok m x hx with h | h
    · exact digit_notExpChar h
    · subst h; rfl
  have hcons : twoDecChars m = c :: (cs ++ '.' :: [digitChar (m % 100 / 10), digitChar (m % 100 % 10)]) := by
    rw [twoDecChars, hc]
    rfl
  unfold pyFloatChars
  rw [stripWs_twoDec, hcons, splitSign_of_digit hchead, ← hcons]
  simp only [takeWhile_all hall, dropWhile_all hall, parseMantissa_twoDec]
  simp

theorem pyFloat_formatTwoDec (m : Nat) :
    pyFloat (formatTwoDec ((m : Rat) / 100)) = some ((m : Rat) / 100) := by
  have hq : ((m : Rat) / 100) * 100 = ((m : Int) : Rat) := by
    push_cast
    field_simp
  have hround : roundHalfEven (((m : Rat) / 100) * 100) = (m : Int) := by
    rw [hq, roundHalfEven_intCast]
  have hneg : ¬ ((m : Rat) / 100 < 0) := not_lt.mpr (by positivity)
  unfold formatTwoDec pyFloat
  rw [hround, if_neg hneg]
  simp only [List.nil_append, Int.natAbs_ofNat]
  exact pyFloatChars_twoDec m

/-! ### Facts about the matcher -/

theorem sortTxns_perm (l : List Txn) : (sortTxns l).Perm l :=
  List.mergeSort_perm l txnLe

theorem sortTxns_eq_nil_iff (l : List Txn) : sortTxns l = [] ↔ l = [] := by
  constructor
  · intro h
    have hp := sortTxns_perm l
    rw [h] at hp
    exact hp.symm.eq_nil
  · rintro rfl
    simp [sortTxns, List.mergeSort_nil]

theorem dedupNew_eq_nil {oldIds proc : List TxnId} {cands : List Txn}
    (h : ∀ t ∈ cands, txnKey t ∈ oldIds ∨ txnKey t ∈ proc) :
    dedupNew oldIds proc cands = [] := by
  induction cands generalizing proc with
  | nil => rfl
  | cons t ts ih =>
    have ht := h t (by simp)
    rw [dedupNew, if_neg (by tauto)]
    exact ih (fun x hx => h x (by simp [hx]))

theorem dedupNew_covers {oldIds : List TxnId} {cands : List Txn} :
    ∀ (proc : List TxnId), ∀ t ∈ cands,
      txnKey t ∈ oldIds ∨ txnKey t ∈ (dedupNew oldIds proc cands).map txnKey ∨
        txnKey t ∈ proc := by
  induction cands with
  | nil => intro proc t ht; simp at ht
  | cons x ts ih =>
    intro proc t ht
    by_cases hcond : txnKey x ∉ oldIds ∧ txnKey x ∉ proc
    · rw [dedupNew, if_pos hcond]
      rcases List.mem_cons.mp ht with rfl | hts
      · exact Or.inr (Or.inl (by simp))
      · rcases ih (txnKey x :: proc) t hts with h | h | h
        · exact Or.inl h
        · exact Or.inr (Or.inl (by simp [h]))
        · rcases List.mem_cons.mp h with heq | hp
          · exact Or.inr (Or.inl (by simp [heq]))
          · exact Or.inr (Or.inr hp)
    · rw [dedupNew, if_neg hcond]
      rcases List.mem_cons.mp ht with rfl | hts
      · rcases not_and_or.mp hcond with h | h
        · exact Or.inl (not_not.mp h)
        · exact Or.inr (Or.inr (not_not.mp h))
      · exact ih proc t hts

theorem dedupNew_mem_keys (oldIds : List TxnId) (cands : List Txn) :
    ∀ (proc : List TxnId) (k : TxnId),
      k ∈ (dedupNew oldIds proc cands).map txnKey ↔
        (k ∈ cands.map txnKey ∧ k ∉ oldIds ∧ k ∉ proc) := by
  induction cands with
  | nil => intro proc k; simp [dedupNew]
  | cons t ts ih =>
    intro proc k
    by_cases hcond : txnKey t ∉ oldIds ∧ txnKey t ∉ proc
    · rw [dedupNew, if_pos hcond]
      by_cases hk : k = txnKey t
      · subst hk
        simp only [List.map_cons, List.mem_cons, true_or, true_iff]
        exact ⟨by simp, hcond.1, hcond.2⟩
      · simp only [List.map_cons, List.mem_cons]
        rw [ih (txnKey t :: proc) k]
        constructor
        · rintro (h | ⟨h1, h2, h3⟩)
          · exact absurd h hk
          · exact ⟨Or.inr h1, h2, fun hp => h3 (List.mem_cons_of_mem _ hp)⟩
        · rintro ⟨h1 | h1, h2, h3⟩
          · exact absurd h1 hk
          · refine Or.inr ⟨h1, h2, fun hp => ?_⟩
            rcases List.mem_cons.mp hp with h | h
            · exact hk h
            · exact h3 h
    · rw [dedupNew, if_neg hcond]
      rw [ih proc k]
      simp only [List.map_cons, List.mem_cons]
      constructor
      · rintro ⟨h1, h2, h3⟩
        exact ⟨Or.inr h1, h2, h3⟩
      · rintro ⟨h1 | h1, h2, h3⟩
        · subst h1
          rcases not_and_or.mp hcond with h | h
          · exact absurd (not_not.mp h) h2
          · exact absurd (not_not.mp h) h3
        · exact ⟨h1, h2, h3⟩

theorem dedupNew_keys_nodup (oldIds : List TxnId) (cands : List Txn) :
    ∀ (proc : List TxnId),
      ((dedupNew oldIds proc cands).map txnKey).Nodup ∧
        ∀ k ∈ (dedupNew oldIds proc cands).map txnKey, k ∉ proc := by
  induction cands with
  | nil => intro proc; simp [dedupNew]
  | cons t ts ih =>
    intro proc
    by_cases hcond : txnKey t ∉ oldIds ∧ txnKey t ∉ proc
    · rw [dedupNew, if_pos hcond]
      obtain ⟨hnd, hdisj⟩ := ih (txnKey t :: proc)
      refine ⟨?_, ?_⟩
      · simp only [List.map_cons, List.nodup_cons]
        exact ⟨fun hmem => hdisj _ hmem (by simp), hnd⟩
      · intro k hk
        rcases List.mem_cons.mp hk with rfl | h
        · exact hcond.2
        · exact fun hp => hdisj k h (List.mem_cons_of_mem _ hp)
    · rw [dedupNew, if_neg hcond]
      exact ih proc

theorem txnLe_BA : txnLe sampleTxnB sampleTxnA = false := by decide

theorem txnLe_AB : txnLe sampleTxnA sampleTxnB = true := by decide

theorem sortTxns_BA : sortTxns [sampleTxnB, sampleTxnA] = [sampleTxnA, sampleTxnB] := by
  rw [sortTxns, List.mergeSort]
  simp [List.merge, txnLe_BA]

theorem sortTxns_AA : sortTxns [sampleTxnA, sampleTxnA] = [sampleTxnA, sampleTxnA] := by
  rw [sortTxns, List.mergeSort]
  have : txnLe sampleTxnA sampleTxnA = true := by decide
  simp [List.merge, this]

/-- C1 counterexample: with `old = []` and two structurally identical
candidates, `find_new_txns` returns **both** copies (the empty-`old`
shortcut skips the dedup loop), so the result does not contain exactly one
record per identity key. -/
theorem c1_counterexample :
    (findNewTxns [] [sampleTxnA, sampleTxnA]).1 = [sampleTxnA, sampleTxnA] ∧
      (findNewTxns [] [sampleTxnA, sampleTxnA]).1.length ≠ 1 := by
  have h : (findNewTxns [] [sampleTxnA, sampleTxnA]).1 = [sampleTxnA, sampleTxnA] := by
    rw [findNewTxns, if_neg (by simp), if_pos rfl]
    exact sortTxns_AA
  exact ⟨h, by rw [h]; decide⟩

/-- C1 (amended): duplicate suppression within the candidate set happens
only when `old` is non-empty.  With an empty `old` list the candidates are
returned sorted, duplicates included; with a non-empty `old` list the
result carries at most one record per identity key, and a key occurs in
the result iff it is a candidate key that is not an old key. -/
theorem find_new_txns_dedup_amended :
    (∀ cands : List Txn, cands ≠ [] → (findNewTxns [] cands).1 = sortTxns cands) ∧
      (∀ old cands : List Txn, old ≠ [] →
        ((findNewTxns old cands).1.map txnKey).Nodup ∧
          ∀ k : TxnId, k ∈ (findNewTxns old cands).1.map txnKey ↔
            (k ∈ cands.map txnKey ∧ k ∉ old.map txnKey)) := by
  constructor
  · intro cands hc
    rw [findNewTxns, if_neg hc, if_pos rfl]
  · intro old cands ho
    by_cases hc : cands = []
    · subst hc
      rw [findNewTxns, if_pos rfl]
      simp
    · rw [findNewTxns, if_neg hc, if_neg ho]
      simp only
      have hperm : ((sortTxns (dedupNew (old.map txnKey) [] cands)).map txnKey).Perm
          ((dedupNew (old.map txnKey) [] cands).map txnKey) :=
        (sortTxns_perm _).map txnKey
      constructor
      · exact hperm.nodup_iff.mpr (dedupNew_keys_nodup (old.map txnKey) cands []).1
      · intro k
        rw [hperm.mem_iff, dedupNew_mem_keys (old.map txnKey) cands [] k]
        simp

/-- C1 (amended) witness at concrete inputs. -/
theorem find_new_txns_dedup_amended_witness :
    (findNewTxns [] [sampleTxnB, sampleTxnA]).1 = sortTxns [sampleTxnB, sampleTxnA] ∧
      ((findNewTxns [sampleTxnB] [sampleTxnA, sampleTxnA]).1.map txnKey).Nodup :=
  ⟨find_new_txns_dedup_amended.1 [sampleTxnB, sampleTxnA] (by simp),
    (find_new_txns_dedup_amended.2 [sampleTxnB] [sampleTxnA, sampleTxnA] (by simp)).1⟩

/-- C7: merging the matcher's output into the old set and re-running on the
same candidates yields the empty list:
`find_new(old ++ find_new(old, candidates), candidates) == []`. -/
theorem find_new_txns_merged_fixpoint (old cands : List Txn) :
    (findNewTxns (old ++ (findNewTxns old cands).1) cands).1 = [] := by
  by_cases hc : cands = []
  · subst hc
    rw [findNewTxns, if_pos rfl]
  · have hcover : ∀ t ∈ cands, txnKey t ∈ (old ++ (findNewTxns old cands).1).map txnKey := by
      intro t ht
      by_cases ho : old = []
      · subst ho
        rw [findNewTxns, if_neg hc, if_pos rfl]
        simp only [List.nil_append]
        exact ((sortTxns_perm cands).map txnKey).mem_iff.mpr (List.mem_map_of_mem txnKey ht)
      · rw [findNewTxns, if_neg hc, if_neg ho]
        simp only [List.map_append, List.mem_append]
        rcases dedupNew_covers [] t ht with h | h | h
        · exact Or.inl h
        · exact Or.inr (((sortTxns_perm _).map txnKey).mem_iff.mpr h)
        · simp at h
    have hne : old ++ (findNewTxns old cands).1 ≠ [] := by
      intro h
      rcases List.append_eq_nil.mp h with ⟨h1, h2⟩
      rw [findNewTxns, if_neg hc, if_pos h1] at h2
      simp only at h2
      exact hc ((sortTxns_eq_nil_iff cands).mp h2)
    rw [findNewTxns, if_neg hc, if_neg hne]
    simp only
    rw [dedupNew_eq_nil (fun t ht => Or.inl (hcover t ht))]
    simp [sortTxns, List.mergeSort_nil]

/-- C9 counterexample: with an empty `old` list and unsorted candidates the
call hands back a reordered candidates list (the Python code sorts
`all_potential_txns` in place), so the inputs are not consumed
read-only. -/
theorem c9_counterexample :
    (findNewTxns [] [sampleTxnB, sampleTxnA]).2 ≠ [sampleTxnB, sampleTxnA] := by
  rw [findNewTxns, if_neg (by simp), if_pos rfl]
  simp only
  rw [sortTxns_BA]
  decide

/-- C9 (amended): `find_new_txns` never mutates `old`; it leaves the
candidates list untouched whenever `old` is non-empty or the candidate
list is empty, and when `old` is empty (and candidates non-empty) it sorts
the candidates list in place. -/
theorem find_new_txns_mutation_amended (old cands : List Txn) :
    ((old ≠ [] ∨ cands = []) → (findNewTxns old cands).2 = cands) ∧
      (old = [] → cands ≠ [] → (findNewTxns old cands).2 = sortTxns cands) := by
  constructor
  · rintro (ho | hc)
    · by_cases hc : cands = []
      · rw [findNewTxns, if_pos hc]
      · rw [findNewTxns, if_neg hc, if_neg ho]
    · rw [findNewTxns, if_pos hc]
  · rintro rfl hc
    rw [findNewTxns, if_neg hc, if_pos rfl]

/-- C2 counterexample: `_parse_amount("abc")` does not return a float at
all: it calls `log_and_exit` (which terminates the process) with the
"Could not parse amount" message. -/
theorem c2_counterexample :
    parseAmount (some "abc") = .error (parseAmountErrMsg "abc") ∧
      ∀ q : Rat, parseAmount (some "abc") ≠ .ok q := by
  have habc : parseAmount (some "abc") = .error (parseAmountErrMsg "abc") := by
    set_option maxHeartbeats 2000000 in rfl
  refine ⟨habc, fun q h => ?_⟩
  rw [habc] at h
  exact Except.noConfusion h

theorem finishParse_error {v : String} {s : List Char} {msg : String}
    (h : finishParse v s = .error msg) :
    msg = parseAmountErrMsg v ∧ v ≠ "0" ∧ v ≠ "0.0" := by
  unfold finishParse at h
  rcases hf : pyFloatChars s with _ | q
  · rw [hf] at h
    simp only at h
    by_cases hz : v = "0" || v = "0.0"
    · rw [if_pos hz] at h
      exact Except.noConfusion h
    · rw [if_neg hz] at h
      simp only [Bool.or_eq_true, decide_eq_true_eq, not_or] at hz
      exact ⟨(Except.error.injEq _ _).mp h.symm, hz.1, hz.2⟩
  · rw [hf] at h
    exact Except.noConfusion h

/-- C2 (amended): `_parse_amount` never raises: for every input it either
returns a float, or — exactly when the input is unparsable and not one of
the obvious zero/empty sentinels (`None`, `""`, `"0"`, `"0.0"`) — it
reports the value via `log_and_exit`, which terminates the process instead
of returning `0.0`.  The zero/empty sentinels themselves always yield a
float. -/
theorem parse_amount_amended (value : Option String) :
    ((value = none ∨ value = some "" ∨ value = some "0" ∨ value = some "0.0") →
        ∃ q : Rat, parseAmount value = .ok q) ∧
      (∀ msg : String, parseAmount value = .error msg →
        msg = parseAmountErrMsg (value.getD "") ∧ value ≠ none ∧ value ≠ some "" ∧
          value ≠ some "0" ∧ value ≠ some "0.0") := by
  constructor
  · rintro (rfl | rfl | rfl | rfl)
    · exact ⟨_, rfl⟩
    · exact ⟨_, rfl⟩
    · exact ⟨_, rfl⟩
    · exact ⟨_, rfl⟩
  · intro msg herr
    rcases value with _ | v
    · rw [parseAmount] at herr
      exact Except.noConfusion herr
    · by_cases hv : v = ""
      · rw [parseAmount, if_pos hv] at herr
        exact Except.noConfusion herr
      · rw [parseAmount, if_neg hv] at herr
        obtain ⟨h1, h2, h3⟩ := finishParse_error herr
        exact ⟨by simpa using h1, by simp, by simpa using hv, by simpa using h2,
          by simpa using h3⟩

/-- C2 (amended) witness at concrete inputs. -/
theorem parse_amount_amended_witness :
    (∃ q : Rat, parseAmount (some "0.0") = .ok q) ∧
      ("Could not parse amount: 'abc'" = parseAmountErrMsg ((some "abc").getD "") ∧
        (some "abc" : Option String) ≠ none ∧ (some "abc" : Option String) ≠ some "" ∧
        (some "abc" : Option String) ≠ some "0" ∧ (some "abc" : Option String) ≠ some "0.0") :=
  ⟨(parse_amount_amended (some "0.0")).1 (by simp),
    (parse_amount_amended (some "abc")).2 "Could not parse amount: 'abc'" rfl⟩

theorem c3_counterexample :
    computeAmounts ["amount"] [[("amount", some "5")]] (some "sign") "" = .ok (some [5]) ∧
      amountsPerClaim ["amount"] [[("amount", some "5")]] (some "sign") "" = .ok (some [-5]) ∧
      computeAmounts ["amount"] [[("amount", some "5")]] (some "sign") "" ≠
        amountsPerClaim ["amount"] [[("amount", some "5")]] (some "sign") "" := by
  refine ⟨by decide, by decide, by decide⟩

/-- C3 (amended): the amount is computed per the claim's priority order,
with branch (b) additionally requiring the configured sign column to be
present in the table; when it is configured but absent the amount is
parsed with no sign correction.  (`debit_value` is assumed distinct from
the literal `"<na>"`, the `str()` image of a missing value, which the
code's string comparison would treat as matching an absent cell.) -/
theorem compute_amounts_amended (cols : List String) (rows : List DfRow)
    (amountSignCol : Option String) (debitValue : String) (hdv : debitValue ≠ "<na>") :
    computeAmounts cols rows amountSignCol debitValue =
      amountsPerClaimAmended cols rows amountSignCol debitValue := by
  have hneg : ∀ cell : Cell, signNegates debitValue cell = claimSignNegates debitValue cell := by
    intro cell
    cases cell with
    | none =>
      by_cases h : debitValue = ""
      · subst h
        rfl
      · have h1 : ("<na>" == debitValue) = false := by
          rw [beq_eq_false_iff_ne]
          exact fun hc => hdv hc.symm
        have h2 : (debitValue == "") = false := by
          rw [beq_eq_false_iff_ne]
          exact h
        simp only [signNegates, claimSignNegates, cellStr, h, h1, h2]
        have hna : pyLower (pyStrip "<NA>") = "<na>" := rfl
        rw [hna, h1]
        simp
    | some s =>
      simp [signNegates, claimSignNegates, cellStr]
  unfold computeAmounts amountsPerClaimAmended
  simp only [hneg]

/-- C3 (amended) witness at concrete inputs. -/
theorem compute_amounts_amended_witness :
    ("x" : String) ≠ "<na>" ∧
      computeAmounts ["amount"] [[("amount", some "5")]] (some "sign") "x" =
        amountsPerClaimAmended ["amount"] [[("amount", some "5")]] (some "sign") "x" :=
  ⟨by decide, compute_amounts_amended ["amount"] [[("amount", some "5")]] (some "sign") "x"
    (by decide)⟩

/-! ### Facts about the categorizer -/

theorem applyMatchers_cons (regexSearch : String → String → Option Bool) (m : Matcher)
    (rest : List Matcher) (is_debit : Bool) (desc acct : String) :
    applyMatchers regexSearch (m :: rest) is_debit desc acct =
      match ruleMatches regexSearch m is_debit desc acct with
      | .error e => .error e
      | .ok true => .ok (some (m.category.getD DEFAULT_CATEGORY))
      | .ok false => applyMatchers regexSearch rest is_debit desc acct := by
  rw [applyMatchers, ruleMatches]
  by_cases hs : matcherSkips m is_debit acct
  · rw [if_pos hs, if_pos hs]
  · rw [if_neg hs, if_neg hs]

theorem applyMatchers_first (regexSearch : String → String → Option Bool)
    (is_debit : Bool) (desc acct : String) :
    ∀ (pre : List Matcher) (m : Matcher) (post : List Matcher),
      (∀ p ∈ pre, ruleMatches regexSearch p is_debit desc acct = .ok false) →
      ruleMatches regexSearch m is_debit desc acct = .ok true →
      applyMatchers regexSearch (pre ++ m :: post) is_debit desc acct =
        .ok (some (m.category.getD DEFAULT_CATEGORY)) := by
  intro pre
  induction pre with
  | nil =>
    intro m post _ hm
    rw [List.nil_append, applyMatchers_cons, hm]
  | cons p pre ih =>
    intro m post hpre hm
    rw [List.cons_append, applyMatchers_cons, hpre p (by simp)]
    exact ih m post (fun q hq => hpre q (by simp [hq])) hm

theorem applyMatchers_spec (regexSearch : String → String → Option Bool)
    (is_debit : Bool) (desc acct : String) :
    ∀ (ms : List Matcher) (res : Option String),
      applyMatchers regexSearch ms is_debit desc acct = .ok res →
      (res = none ∧ ∀ m ∈ ms, ruleMatches regexSearch m is_debit desc acct ≠ .ok true) ∨
      (∃ pre m post, ms = pre ++ m :: post ∧
        (∀ p ∈ pre, ruleMatches regexSearch p is_debit desc acct = .ok false) ∧
        ruleMatches regexSearch m is_debit desc acct = .ok true ∧
        res = some (m.category.getD DEFAULT_CATEGORY)) := by
  intro ms
  induction ms with
  | nil =>
    intro res h
    rw [applyMatchers] at h
    exact Or.inl ⟨(Except.ok.inj h).symm, by simp⟩
  | cons m rest ih =>
    intro res h
    rw [applyMatchers_cons] at h
    rcases hr : ruleMatches regexSearch m is_debit desc acct with e | b
    · rw [hr] at h
      exact Except.noConfusion h
    · rcases b with _ | _
      · rw [hr] at h
        rcases ih res h with ⟨h1, h2⟩ | ⟨pre, m', post, heq, hpre, hm, hres⟩
        · refine Or.inl ⟨h1, fun q hq => ?_⟩
          rcases List.mem_cons.mp hq with rfl | hq2
          · rw [hr]
            intro hc
            exact Bool.noConfusion (Except.ok.inj hc)
          · exact h2 q hq2
        · refine Or.inr ⟨m :: pre, m', post, by rw [heq, List.cons_append], ?_, hm, hres⟩
          intro q hq
          rcases List.mem_cons.mp hq with rfl | hq2
          · exact hr
          · exact hpre q hq2
      · rw [hr] at h
        exact Or.inr ⟨[], m, rest, rfl, by simp, hr, (Except.ok.inj h).symm⟩

/-- C4 counterexample: with an empty loaded rule list, `categorize` does
not complete in a degraded mode: it calls `log_and_exit` (process exit)
and returns no transaction list at all. -/
theorem c4_counterexample :
    categorize (fun _ _ => some false) [] [sampleTxnA] =
        .error "No valid matchers loaded. Assigning default category to all transactions." ∧
      ∀ ts : List Txn, categorize (fun _ _ => some false) [] [sampleTxnA] ≠ .ok ts := by
  have h : categorize (fun _ _ => some false) [] [sampleTxnA] =
      .error "No valid matchers loaded. Assigning default category to all transactions." := rfl
  refine ⟨h, fun ts hc => ?_⟩
  rw [h] at hc
  exact Except.noConfusion hc

/-- C4 (amended): when the loaded rule list is empty, `categorize` calls
`log_and_exit` with a critical message and the run is aborted (process
exit with code 1); the input transactions are not categorized and nothing
is returned. -/
theorem categorize_empty_rules_amended (regexSearch : String → String → Option Bool)
    (txns : List Txn) :
    categorize regexSearch [] txns =
        .error "No valid matchers loaded. Assigning default category to all transactions." ∧
      ∀ ts : List Txn, categorize regexSearch [] txns ≠ .ok ts := by
  constructor
  · rw [categorize, if_pos rfl]
  · intro ts h
    rw [categorize, if_pos rfl] at h
    exact Except.noConfusion h

/-- C4 (amended) witness at a concrete input. -/
theorem categorize_empty_rules_amended_witness :
    categorize (fun _ _ => some true) [] [sampleTxnB] =
      .error "No valid matchers loaded. Assigning default category to all transactions." :=
  (categorize_empty_rules_amended (fun _ _ => some true) [sampleTxnB]).1

/-- C5: first matching rule wins.  If the rules before `m` all fail to
match the transaction, `m` matches, and a later rule also matches, the
transaction is assigned `m`'s category, and the rules after `m` are
irrelevant (the rule loop breaks; the pattern loop inside
`anyPatternMatches` likewise stops at the first matching pattern). -/
theorem categorize_first_match (regexSearch : String → String → Option Bool) (t : Txn)
    (pre post : List Matcher) (m m2 : Matcher)
    (hpre : ∀ p ∈ pre, ruleMatches regexSearch p (decide (t.amount < 0))
      (pyLower t.description) (pyLower t.account) = .ok false)
    (hm : ruleMatches regexSearch m (decide (t.amount < 0)) (pyLower t.description)
      (pyLower t.account) = .ok true)
    (_hm2 : m2 ∈ post ∧ ruleMatches regexSearch m2 (decide (t.amount < 0))
      (pyLower t.description) (pyLower t.account) = .ok true) :
    categorizeTxn regexSearch (pre ++ m :: post) t =
        .ok { t with category := m.category.getD DEFAULT_CATEGORY } ∧
      categorizeTxn regexSearch (pre ++ m :: post) t =
        categorizeTxn regexSearch (pre ++ [m]) t := by
  have h1 := applyMatchers_first regexSearch (decide (t.amount < 0)) (pyLower t.description)
    (pyLower t.account) pre m post hpre hm
  have h2 := applyMatchers_first regexSearch (decide (t.amount < 0)) (pyLower t.description)
    (pyLower t.account) pre m [] hpre hm
  rw [categorizeTxn, h1, categorizeTxn, h2]
  exact ⟨rfl, rfl⟩

/-- C5 witness at concrete inputs: two rules both match `sampleTxnA`; the
first one's category is assigned. -/
theorem categorize_first_match_witness :
    (ruleMatches (fun _ _ => some false) matFood (decide (sampleTxnA.amount < 0))
        (pyLower sampleTxnA.description) (pyLower sampleTxnA.account) = .ok true) ∧
      categorizeTxn (fun _ _ => some false) [matFood, matCash] sampleTxnA =
        .ok { sampleTxnA with category := "Food" } := by
  have hm : ruleMatches (fun _ _ => some false) matFood (decide (sampleTxnA.amount < 0))
      (pyLower sampleTxnA.description) (pyLower sampleTxnA.account) = .ok true := by decide
  have hm2 : ruleMatches (fun _ _ => some false) matCash (decide (sampleTxnA.amount < 0))
      (pyLower sampleTxnA.description) (pyLower sampleTxnA.account) = .ok true := by decide
  refine ⟨hm, ?_⟩
  exact (categorize_first_match (fun _ _ => some false) sampleTxnA [] [matCash] matFood
    matCash (by simp) hm ⟨by simp, hm2⟩).1

/-- C10: `categorize` discards each transaction's incoming category: the
result is unchanged when every input category is overwritten beforehand,
and on success each output category is either `"Uncategorized"` or the
category of the first rule (in list order) whose conditions match. -/
theorem categorize_category_reset (regexSearch : String → String → Option Bool)
    (ms : List Matcher) :
    (∀ (t : Txn) (c : String),
        categorizeTxn regexSearch ms { t with category := c } =
          categorizeTxn regexSearch ms t) ∧
      (∀ (txns : List Txn) (c : String),
        categorize regexSearch ms (txns.map (fun x => { x with category := c })) =
          categorize regexSearch ms txns) ∧
      (∀ (t t' : Txn), categorizeTxn regexSearch ms t = .ok t' →
        t'.category = DEFAULT_CATEGORY ∨
          ∃ pre m post, ms = pre ++ m :: post ∧
            (∀ p ∈ pre, ruleMatches regexSearch p (decide (t.amount < 0))
              (pyLower t.description) (pyLower t.account) = .ok false) ∧
            ruleMatches regexSearch m (decide (t.amount < 0)) (pyLower t.description)
              (pyLower t.account) = .ok true ∧
            t'.category = m.category.getD DEFAULT_CATEGORY) := by
  have hsingle : ∀ (t : Txn) (c : String),
      categorizeTxn regexSearch ms { t with category := c } = categorizeTxn regexSearch ms t :=
    fun t c => rfl
  refine ⟨hsingle, ?_, ?_⟩
  · intro txns c
    rw [categorize, categorize]
    by_cases hms : ms = []
    · rw [if_pos hms, if_pos hms]
    · rw [if_neg hms, if_neg hms]
      induction txns with
      | nil => rfl
      | cons x xs ih =>
        rw [List.map_cons, List.mapM_cons, List.mapM_cons, hsingle x c, ih]
  · intro t t' h
    rw [categorizeTxn] at h
    rcases ha : applyMatchers regexSearch ms (decide (t.amount < 0)) (pyLower t.description)
        (pyLower t.account) with e | res
    · rw [ha] at h
      exact Except.noConfusion h
    · rw [ha] at h
      rcases applyMatchers_spec regexSearch (decide (t.amount < 0)) (pyLower t.description)
          (pyLower t.account) ms res ha with ⟨hres, _⟩ | ⟨pre, m, post, heq, hpre, hm, hres⟩
      · subst hres
        simp only at h
        exact Or.inl (by rw [← Except.ok.inj h])
      · subst hres
        simp only at h
        exact Or.inr ⟨pre, m, post, heq, hpre, hm, by rw [← Except.ok.inj h]⟩

/-- C10 witness at concrete inputs. -/
theorem categorize_category_reset_witness :
    (categorizeTxn (fun _ _ => some false) [matCash] { sampleTxnA with category := "X" } =
        categorizeTxn (fun _ _ => some false) [matCash] sampleTxnA) ∧
      (({ sampleTxnA with category := "Cash" } : Txn).category = DEFAULT_CATEGORY ∨
        ∃ pre m post, [matCash] = pre ++ m :: post ∧
          (∀ p ∈ pre, ruleMatches (fun _ _ => some false) p
            (decide (sampleTxnA.amount < 0)) (pyLower sampleTxnA.description)
            (pyLower sampleTxnA.account) = .ok false) ∧
          ruleMatches (fun _ _ => some false) m (decide (sampleTxnA.amount < 0))
            (pyLower sampleTxnA.description) (pyLower sampleTxnA.account) = .ok true ∧
          ({ sampleTxnA with category := "Cash" } : Txn).category =
            m.category.getD DEFAULT_CATEGORY) :=
  ⟨(categorize_category_reset (fun _ _ => some false) [matCash]).1 sampleTxnA "X",
    (categorize_category_reset (fun _ _ => some false) [matCash]).2.2 sampleTxnA
      { sampleTxnA with category := "Cash" } (by decide)⟩

theorem tryFormats_first (cleaned : List Char) :
    ∀ (pre : List String) (fmt : String) (rest : List String) (d : DateTime),
      (∀ g ∈ pre, strptimeChars cleaned g.data = none) →
      strptimeChars cleaned fmt.data = some d →
      tryFormats cleaned (pre ++ fmt :: rest) = some d := by
  intro pre
  induction pre with
  | nil =>
    intro fmt rest d _ hfmt
    rw [List.nil_append, tryFormats, hfmt]
  | cons g pre ih =>
    intro fmt rest d hpre hfmt
    rw [List.cons_append, tryFormats, hpre g (by simp)]
    exact ih fmt rest d (fun x hx => hpre x (by simp [hx])) hfmt

theorem tryFormats_none (cleaned : List Char) :
    ∀ (formats : List String),
      (∀ g ∈ formats, strptimeChars cleaned g.data = none) →
      tryFormats cleaned formats = none := by
  intro formats
  induction formats with
  | nil => intro _; rfl
  | cons g rest ih =>
    intro h
    rw [tryFormats, h g (by simp)]
    exact ih (fun x hx => h x (by simp [hx]))

/-- C6: the date parser returns no value for `None`/empty input; otherwise
it strips enclosing quote/space characters and tries each explicit format
in order, returning the first whole-string `strptime` match (list order
decides); if none matches it falls back to day-first inference
(`inferDate`), and returns no value if that also fails.
`parse_date("23-01-2024", ["%d-%m-%Y"])` is 2024-01-23 (also with
enclosing quotes), and `parse_date("invalid", [])` is no value. -/
theorem parse_mixed_datetime_spec (inferDate : String → Option DateTime) :
    (∀ formats, parseMixedDatetime inferDate none formats = none ∧
        parseMixedDatetime inferDate (some "") formats = none) ∧
      (∀ (s : String) (pre : List String) (fmt : String) (rest : List String) (d : DateTime),
        s ≠ "" →
        (∀ g ∈ pre, strptimeChars (stripQuoteSpace s.data) g.data = none) →
        strptimeChars (stripQuoteSpace s.data) fmt.data = some d →
        parseMixedDatetime inferDate (some s) (pre ++ fmt :: rest) = some d) ∧
      (∀ (s : String) (formats : List String), s ≠ "" →
        (∀ g ∈ formats, strptimeChars (stripQuoteSpace s.data) g.data = none) →
        parseMixedDatetime inferDate (some s) formats =
          inferDate (String.mk (stripQuoteSpace s.data))) ∧
      (parseMixedDatetime inferDate (some "23-01-2024") ["%d-%m-%Y"] =
          some ⟨2024, 1, 23, 0, 0, 0⟩) ∧
      (parseMixedDatetime inferDate (some "'23-01-2024'") ["%d-%m-%Y"] =
          some ⟨2024, 1, 23, 0, 0, 0⟩) ∧
      (inferDate "invalid" = none →
        parseMixedDatetime inferDate (some "invalid") [] = none) := by
  refine ⟨fun formats => ⟨rfl, rfl⟩, ?_, ?_, rfl, rfl, ?_⟩
  · intro s pre fmt rest d hs hpre hfmt
    rw [parseMixedDatetime, if_neg hs]
    simp only
    rw [tryFormats_first _ pre fmt rest d hpre hfmt]
  · intro s formats hs hnone
    rw [parseMixedDatetime, if_neg hs]
    simp only
    rw [tryFormats_none _ formats hnone]
  · intro hinv
    have hstr : String.mk (stripQuoteSpace ("invalid" : String).data) = "invalid" := by decide
    rw [parseMixedDatetime, if_neg (by decide)]
    simp only
    rw [show tryFormats (stripQuoteSpace ("invalid" : String).data) [] = none from rfl,
      hstr, hinv]

/-- C6 witness at concrete inputs: format order decides (the first format
fails on `"23-01-2024"`, the second matches). -/
theorem parse_mixed_datetime_spec_witness :
    ((∀ g ∈ ["%Y-%m-%d"],
        strptimeChars (stripQuoteSpace ("23-01-2024" : String).data) g.data = none) ∧
      strptimeChars (stripQuoteSpace ("23-01-2024" : String).data) ("%d-%m-%Y" : String).data =
        some ⟨2024, 1, 23, 0, 0, 0⟩) ∧
      parseMixedDatetime (fun _ => none) (some "23-01-2024") ["%Y-%m-%d", "%d-%m-%Y"] =
        some ⟨2024, 1, 23, 0, 0, 0⟩ := by
  have h1 : ∀ g ∈ ["%Y-%m-%d"],
      strptimeChars (stripQuoteSpace ("23-01-2024" : String).data) g.data = none := by decide
  have h2 : strptimeChars (stripQuoteSpace ("23-01-2024" : String).data)
      ("%d-%m-%Y" : String).data = some ⟨2024, 1, 23, 0, 0, 0⟩ := by decide
  exact ⟨⟨h1, h2⟩, (parse_mixed_datetime_spec (fun _ => none)).2.1 "23-01-2024" ["%Y-%m-%d"]
    "%d-%m-%Y" [] ⟨2024, 1, 23, 0, 0, 0⟩ (by decide) h1 h2⟩

/-! ### Helper lemmas for the storage round trip (C8) -/

theorem stripBoth_eq_self {p : Char → Bool} {cs : List Char} (h : ∀ c ∈ cs, p c = false) :
    ((cs.dropWhile p).reverse.dropWhile p).reverse = cs := by
  have h1 : cs.dropWhile p = cs := by
    cases he : cs with
    | nil => rfl
    | cons c rest =>
      rw [List.dropWhile_cons, h c (by rw [he]; simp), if_neg (by simp)]
  rw [h1]
  cases he : cs.reverse with
  | nil => simp [List.reverse_eq_nil_iff.mp he]
  | cons c rest =>
    rw [List.dropWhile_cons, h c (by rw [← List.mem_reverse, he]; simp),
      if_neg (by simp), ← he, List.reverse_reverse]

theorem removeAllChar_eq_self {c : Char} {cs : List Char} (h : ∀ x ∈ cs, x ≠ c) :
    removeAllChar c cs = cs := by
  unfold removeAllChar
  induction cs with
  | nil => rfl
  | cons x rest ih =>
    rw [List.filter_cons]
    have hx : (x != c) = true := by simp [h x (by simp)]
    rw [if_pos hx, ih (fun y hy => h y (by simp [hy]))]

theorem containsSeq_false {a : Char} {nt hay : List Char} (h : ∀ c ∈ hay, c ≠ a) :
    containsSeq (a :: nt) hay = false := by
  induction hay with
  | nil => rfl
  | cons c rest ih =>
    rw [containsSeq]
    have hca : (a == c) = false := by
      simp only [beq_eq_false_iff_ne, ne_eq]
      exact fun he => h c (by simp) he.symm
    rw [List.isPrefixOf]
    rw [hca]
    simp only [Bool.false_and, Bool.false_or]
    exact ih (fun y hy => h y (by simp [hy]))

theorem takeDigitsUpTo_exact :
    ∀ (ds rest : List Char), (∀ c ∈ ds, c.isDigit = true) →
      takeDigitsUpTo ds.length (ds ++ rest) = (ds, rest) := by
  intro ds
  induction ds with
  | nil => intro rest _; rfl
  | cons c cs ih =>
    intro rest h
    rw [List.length_cons, List.cons_append, takeDigitsUpTo]
    rw [if_pos (h c (by simp))]
    rw [ih rest (fun x hx => h x (by simp [hx]))]

theorem digitsToNat_replicate_zero (k : Nat) (cs : List Char) :
    digitsToNat (List.replicate k '0' ++ cs) = digitsToNat cs := by
  induction k with
  | zero => rfl
  | succ k ih =>
    rw [List.replicate_succ, List.cons_append]
    show digitsToNat (List.replicate k '0' ++ cs) = digitsToNat cs
    exact ih

theorem renderNat_length_le {n k : Nat} (hk : 1 ≤ k) (h : n < 10 ^ k) :
    (renderNat n).length ≤ k := by
  induction n using natDigitsRev.induct generalizing k with
  | case1 n hlt =>
    rw [renderNat_lt10 hlt]
    simpa using hk
  | case2 n hlt ih =>
    rw [renderNat_ge10 hlt, List.length_append, List.length_singleton]
    have hk2 : 2 ≤ k := by
      by_contra hc
      interval_cases k
      · omega
    have hdiv : n / 10 < 10 ^ (k - 1) := by
      have h10 : 10 ^ k = 10 ^ (k - 1) * 10 := by
        rw [← pow_succ]
        congr 1
        omega
      rw [h10] at h
      omega
    have := ih (by omega) hdiv
    omega

theorem padNum_digits (k n : Nat) : ∀ c ∈ padNum k n, c.isDigit = true := by
  intro c hc
  rw [padNum, List.mem_append] at hc
  rcases hc with h | h
  · rw [List.eq_of_mem_replicate h]
    rfl
  · exact renderNat_digits n c h

theorem padNum_length {k n : Nat} (h : (renderNat n).length ≤ k) :
    (padNum k n).length = k := by
  rw [padNum, List.length_append, List.length_replicate]
  omega

theorem digitsToNat_padNum (k n : Nat) : digitsToNat (padNum k n) = n := by
  rw [padNum, digitsToNat_replicate_zero, digitsToNat_renderNat]

theorem padNum_ne_nil (k n : Nat) : padNum k n ≠ [] := by
  rw [padNum]
  intro h
  rcases List.append_eq_nil.mp h with ⟨_, h2⟩
  exact renderNat_ne_nil n h2

theorem strptimeRun_dir (f : Char) (hp : f ≠ '%') (fmtRest input : List Char) (st : StrpState) :
    strptimeRun ('%' :: f :: fmtRest) input st =
      (let width := if f = 'Y' then 4 else 2
       let p := takeDigitsUpTo width input
       if p.1 = [] then none
       else
         let v := digitsToNat p.1
         match f with
         | 'Y' => strptimeRun fmtRest p.2 { st with year := v }
         | 'm' => strptimeRun fmtRest p.2 { st with month := v }
         | 'd' => strptimeRun fmtRest p.2 { st with day := v }
         | 'H' => strptimeRun fmtRest p.2 { st with hour := v }
         | 'M' => strptimeRun fmtRest p.2 { st with minute := v }
         | 'S' => strptimeRun fmtRest p.2 { st with second := v }
         | _ => none) := by
  rw [strptimeRun.eq_def]
  simp only [if_neg hp]

theorem strptimeRun_Y (fmtRest input : List Char) (st : StrpState) :
    strptimeRun ('%' :: 'Y' :: fmtRest) input st =
      (if (takeDigitsUpTo 4 input).1 = [] then none
       else strptimeRun fmtRest (takeDigitsUpTo 4 input).2
         { st with year := digitsToNat (takeDigitsUpTo 4 input).1 }) := by
  rw [strptimeRun_dir 'Y' (by decide) fmtRest input st]
  rfl

theorem strptimeRun_m (fmtRest input : List Char) (st : StrpState) :
    strptimeRun ('%' :: 'm' :: fmtRest) input st =
      (if (takeDigitsUpTo 2 input).1 = [] then none
       else strptimeRun fmtRest (takeDigitsUpTo 2 input).2
         { st with month := digitsToNat (takeDigitsUpTo 2 input).1 }) := by
  rw [strptimeRun_dir 'm' (by decide) fmtRest input st]
  rfl

theorem strptimeRun_d (fmtRest input : List Char) (st : StrpState) :
    strptimeRun ('%' :: 'd' :: fmtRest) input st =
      (if (takeDigitsUpTo 2 input).1 = [] then none
       else strptimeRun fmtRest (takeDigitsUpTo 2 input).2
         { st with day := digitsToNat (takeDigitsUpTo 2 input).1 }) := by
  rw [strptimeRun_dir 'd' (by decide) fmtRest input st]
  rfl

theorem strptimeRun_lit_dash (fmtRest inputRest : List Char) (st : StrpState) :
    strptimeRun ('-' :: fmtRest) ('-' :: inputRest) st = strptimeRun fmtRest inputRest st := rfl

/-- `strptime` inverts `strftime("%Y-%m-%d")` on valid calendar dates,
producing midnight of that day. -/
theorem strptime_formatYMD {y m d : Nat} (hy : 1 ≤ y ∧ y ≤ 9999) (hm : 1 ≤ m ∧ m ≤ 12)
    (hd : 1 ≤ d ∧ d ≤ daysInMonth y m) (hh mi se : Nat) :
    strptimeChars (formatDateYMD ⟨y, m, d, hh, mi, se⟩).data ("%Y-%m-%d" : String).data =
      some ⟨y, m, d, 0, 0, 0⟩ := by
  have hylen : (padNum 4 y).length = 4 :=
    padNum_length (renderNat_length_le (by omega) (by omega))
  have hmlen : (padNum 2 m).length = 2 :=
    padNum_length (renderNat_length_le (by omega) (by omega))
  have hdlen : (padNum 2 d).length = 2 := by
    have hd31 : d ≤ 31 := by
      have : daysInMonth y m ≤ 31 := by
        rw [daysInMonth]
        split
        · split <;> omega
        · split <;> omega
      omega
    exact padNum_length (renderNat_length_le (by omega) (by omega))
  have htake4 : takeDigitsUpTo 4 (padNum 4 y ++ '-' :: (padNum 2 m ++ '-' :: padNum 2 d)) =
      (padNum 4 y, '-' :: (padNum 2 m ++ '-' :: padNum 2 d)) := by
    have h := takeDigitsUpTo_exact (padNum 4 y) ('-' :: (padNum 2 m ++ '-' :: padNum 2 d))
      (padNum_digits 4 y)
    rwa [hylen] at h
  have htake2m : takeDigitsUpTo 2 (padNum 2 m ++ '-' :: padNum 2 d) =
      (padNum 2 m, '-' :: padNum 2 d) := by
    have h := takeDigitsUpTo_exact (padNum 2 m) ('-' :: padNum 2 d) (padNum_digits 2 m)
    rwa [hmlen] at h
  have htake2d : takeDigitsUpTo 2 (padNum 2 d) = (padNum 2 d, []) := by
    have h := takeDigitsUpTo_exact (padNum 2 d) [] (padNum_digits 2 d)
    rwa [hdlen, List.append_nil] at h
  have hfmt : ("%Y-%m-%d" : String).data = ['%', 'Y', '-', '%', 'm', '-', '%', 'd'] := rfl
  have hinput : (formatDateYMD ⟨y, m, d, hh, mi, se⟩).data =
      padNum 4 y ++ '-' :: (padNum 2 m ++ '-' :: padNum 2 d) := rfl
  rw [strptimeChars, hfmt, hinput]
  rw [strptimeRun_Y, htake4]
  simp only
  rw [if_neg (padNum_ne_nil 4 y), digitsToNat_padNum, strptimeRun_lit_dash]
  rw [strptimeRun_m, htake2m]
  simp only
  rw [if_neg (padNum_ne_nil 2 m), digitsToNat_padNum, strptimeRun_lit_dash]
  rw [strptimeRun_d, htake2d]
  simp only
  rw [if_neg (padNum_ne_nil 2 d), digitsToNat_padNum]
  rw [show strptimeRun [] [] { year := y, month := m, day := d } =
    some { year := y, month := m, day := d } from rfl]
  simp only
  rw [if_pos (by exact ⟨hy.1, hy.2, hm.1, hm.2, hd.1, hd.2, by omega, by omega, by omega⟩)]

theorem stringMk_ne_empty {l : List Char} (h : l ≠ []) : String.mk l ≠ "" := by
  intro hc
  exact h (congrArg String.data hc)

theorem twoDecChars_cons (m : Nat) :
    ∃ c cs, twoDecChars m = c :: cs ∧ c.isDigit = true := by
  cases hr : renderNat (m / 100) with
  | nil => exact absurd hr (renderNat_ne_nil _)
  | cons c cs =>
    refine ⟨c, cs ++ '.' :: [digitChar (m % 100 / 10), digitChar (m % 100 % 10)], ?_, ?_⟩
    · rw [twoDecChars, hr]
      rfl
    · exact renderNat_digits _ c (by rw [hr]; simp)

theorem twoDecChars_getLast (m : Nat) :
    (twoDecChars m).getLast? = some (digitChar (m % 100 % 10)) := by
  rw [twoDecChars, List.getLast?_append]
  rfl

theorem isSuffixOf3_false {a b c x : Char} {s : List Char} (h : s.getLast? = some x)
    (hx : x ≠ c) : [a, b, c].isSuffixOf s = false := by
  rw [List.isSuffixOf]
  have hrev : s.reverse.head? = some x := by
    rw [List.head?_reverse]
    exact h
  obtain ⟨t, ht⟩ : ∃ t, s.reverse = x :: t := by
    cases hs : s.reverse with
    | nil => rw [hs] at hrev; exact Option.noConfusion hrev
    | cons z zs =>
      rw [hs] at hrev
      exact ⟨zs, by rw [(Option.some.inj hrev)]⟩
  rw [ht]
  show ([c, b, a] : List Char).isPrefixOf (x :: t) = false
  rw [List.isPrefixOf]
  have : (c == x) = false := by
    simp only [beq_eq_false_iff_ne, ne_eq]
    exact fun he => hx (he.symm)
  rw [this]
  rfl

theorem toUpper_digitChar {d : Nat} (h : d < 10) : (digitChar d).toUpper = digitChar d := by
  interval_cases d <;> rfl

theorem twoDecChars_shape (m : Nat) :
    ∀ x ∈ twoDecChars m, (∃ d, d < 10 ∧ x = digitChar d) ∨ x = '.' := by
  intro x hx
  simp only [twoDecChars, List.mem_append, List.mem_cons] at hx
  rcases hx with h | h | h | h | h
  · rcases List.mem_map.mp h with ⟨d, hd, rfl⟩
    exact Or.inl ⟨d, natDigitsRev_lt _ d (List.mem_reverse.mp hd), rfl⟩
  · exact Or.inr h
  · exact Or.inl ⟨_, by omega, h⟩
  · exact Or.inl ⟨_, by omega, h⟩
  · simp at h

/-- `_parse_amount` applied to a plain `f"{m/100:.2f}"` string: all the
normalization passes are no-ops and the float parse is exact. -/
theorem parseAmount_twoDecString (m : Nat) :
    parseAmount (some (String.mk (twoDecChars m))) = .ok ((m : Rat) / 100) := by
  obtain ⟨c, cs, hcons, hcdig⟩ := twoDecChars_cons m
  have hne : String.mk (twoDecChars m) ≠ "" :=
    stringMk_ne_empty (by rw [hcons]; simp)
  have hdata : (String.mk (twoDecChars m)).data = twoDecChars m := rfl
  have hnc : ∀ k : Char, k.isDigit = false → k ≠ '.' → ∀ x ∈ twoDecChars m, x ≠ k := by
    intro k hk hkdot x hx
    rcases twoDecChars_ok m x hx with h | h
    · exact isDigit_ne k h hk
    · subst h
      exact fun hc => hkdot hc.symm
  have hlast := twoDecChars_getLast m
  have hlastd : ∀ k : Char, k.isDigit = false →
      [' ', k.toLower, k].isSuffixOf (twoDecChars m) = false := by
    intro k hk
    exact isSuffixOf3_false hlast (isDigit_ne k (isDigit_digitChar (by omega)) hk)
  have hhead : (twoDecChars m).head? = some c := by rw [hcons]; rfl
  have hp1 : decide ((twoDecChars m).head? = some '(') = false := by
    refine decide_eq_false fun h1 => ?_
    exact absurd (Option.some.inj (hhead.symm.trans h1))
      (hnc '(' (by decide) (by decide) c (by rw [hcons]; simp))
  have hCrB : ([' ', 'C', 'r'].isSuffixOf (twoDecChars m) ||
      [' ', 'C', 'R'].isSuffixOf (twoDecChars m)) = false := by
    rw [isSuffixOf3_false hlast (isDigit_ne 'r' (isDigit_digitChar (by omega)) (by decide)),
      isSuffixOf3_false hlast (isDigit_ne 'R' (isDigit_digitChar (by omega)) (by decide))]
    rfl
  have hDrB : ([' ', 'D', 'r'].isSuffixOf (twoDecChars m) ||
      [' ', 'D', 'R'].isSuffixOf (twoDecChars m)) = false := by
    rw [isSuffixOf3_false hlast (isDigit_ne 'r' (isDigit_digitChar (by omega)) (by decide)),
      isSuffixOf3_false hlast (isDigit_ne 'R' (isDigit_digitChar (by omega)) (by decide))]
    rfl
  have hEplusB : containsSeq ['E', '+'] ((twoDecChars m).map Char.toUpper) = false := by
    refine containsSeq_false ?_
    intro x hx
    rcases List.mem_map.mp hx with ⟨z, hz, rfl⟩
    rcases twoDecChars_shape m z hz with ⟨d, hd, rfl⟩ | rfl
    · rw [toUpper_digitChar hd]
      exact isDigit_ne 'E' (isDigit_digitChar hd) (by decide)
    · decide
  have hPct : ¬((twoDecChars m).getLast? = some '%') := by
    intro hc
    exact absurd (Option.some.inj (hlast.symm.trans hc))
      (hnc '%' (by decide) (by decide) _ (by rw [twoDecChars]; simp))
  have htrans : amountTransform (String.mk (twoDecChars m)) = twoDecChars m := by
    simp only [amountTransform, hdata, stripWs_twoDec,
      removeAllChar_eq_self (hnc ',' (by decide) (by decide)),
      removeAllChar_eq_self (hnc '₹' (by decide) (by decide)),
      removeAllChar_eq_self (hnc '$' (by decide) (by decide)),
      hp1, Bool.false_and, Bool.false_eq_true, if_false,
      hCrB, hDrB, hEplusB, hPct]
  rw [parseAmount, if_neg hne, htrans, finishParse, pyFloatChars_twoDec]

theorem formatDateYMD_chars (dt : DateTime) :
    ∀ c ∈ (formatDateYMD dt).data, c.isDigit = true ∨ c = '-' := by
  intro c hc
  have hdata : (formatDateYMD dt).data =
      padNum 4 dt.year ++ '-' :: (padNum 2 dt.month ++ '-' :: padNum 2 dt.day) := rfl
  rw [hdata] at hc
  simp only [List.mem_append, List.mem_cons] at hc
  rcases hc with h | h | h | h | h
  · exact Or.inl (padNum_digits _ _ c h)
  · exact Or.inr h
  · exact Or.inl (padNum_digits _ _ c h)
  · exact Or.inr h
  · exact Or.inl (padNum_digits _ _ c h)

theorem formatDateYMD_ne_empty (dt : DateTime) : formatDateYMD dt ≠ "" :=
  stringMk_ne_empty (by
    intro h
    rcases List.append_eq_nil.mp h with ⟨h1, _⟩
    exact padNum_ne_nil 4 dt.year h1)

theorem stripQuoteSpace_formatDateYMD (dt : DateTime) :
    stripQuoteSpace (formatDateYMD dt).data = (formatDateYMD dt).data := by
  refine stripBoth_eq_self ?_
  intro c hc
  rcases formatDateYMD_chars dt c hc with h | h
  · have h1 : c ≠ '\'' := isDigit_ne _ h (by decide)
    have h2 : c ≠ ' ' := isDigit_ne _ h (by decide)
    simp [isQuoteSpace, h1, h2]
  · subst h
    rfl

/-- Evaluation of `_standardize_parsed_df` under the log config on a
single already-cellified row carrying the standard header's columns: the
record that comes back.  The cells are abstract; the date and amount
parses are hypotheses. -/
theorem standardize_log_row (inferDate : String → Option DateTime)
    (dcell cdesc cdeb ccred ccat crem cacct : Cell) (DT : DateTime) (vdeb vcred : Rat)
    (hpd : parseMixedDatetime inferDate dcell ["%Y-%m-%d"] = some DT)
    (hdeb : parseAmount cdeb = .ok vdeb) (hcred : parseAmount ccred = .ok vcred) :
    standardizeParsedDf inferDate
        { cols := EXPECTED_SHEET_COLUMNS,
          rows := [[("Date", dcell), ("Description", cdesc), ("Debit", cdeb),
            ("Credit", ccred), ("Category", ccat), ("Remarks", crem), ("Account", cacct)]] }
        logConfig none =
      .ok (some [(⟨DT, cdesc, vcred - vdeb, ccat, crem, cacct⟩ : RecTxn)]) := by
  rw [standardizeParsedDf, if_neg (by simp)]
  have hren : renameDf (buildRenameAssoc logConfig.column_map EXPECTED_SHEET_COLUMNS)
      { cols := EXPECTED_SHEET_COLUMNS,
        rows := [[("Date", dcell), ("Description", cdesc), ("Debit", cdeb),
          ("Credit", ccred), ("Category", ccat), ("Remarks", crem), ("Account", cacct)]] } =
      { cols := ["date", "description", "debit", "credit", "category", "remarks", "account"],
        rows := [[("date", dcell), ("description", cdesc), ("debit", cdeb), ("credit", ccred),
          ("category", ccat), ("remarks", crem), ("account", cacct)]] } := rfl
  rw [hren]
  rw [if_neg (by simp)]
  have hrgd : rowGet [("date", dcell), ("description", cdesc), ("debit", cdeb),
      ("credit", ccred), ("category", ccat), ("remarks", crem), ("account", cacct)] "date" =
      dcell := rfl
  simp only [List.filterMap_cons, List.filterMap_nil, hrgd, logConfig, hpd]
  rw [if_neg (by simp)]
  have hrgc : rowGet [("date", dcell), ("description", cdesc), ("debit", cdeb),
      ("credit", ccred), ("category", ccat), ("remarks", crem), ("account", cacct)]
      "credit" = ccred := rfl
  have hrgb : rowGet [("date", dcell), ("description", cdesc), ("debit", cdeb),
      ("credit", ccred), ("category", ccat), ("remarks", crem), ("account", cacct)]
      "debit" = cdeb := rfl
  have hca : computeAmounts ["date", "description", "debit", "credit", "category",
        "remarks", "account"]
      [[("date", dcell), ("description", cdesc), ("debit", cdeb), ("credit", ccred),
        ("category", ccat), ("remarks", crem), ("account", cacct)]]
      none (pyLower "") = .ok (some [vcred - vdeb]) := by
    rw [computeAmounts, if_pos (by simp)]
    simp only [List.mapM_cons, List.mapM_nil, hrgc, hrgb, hcred, hdeb]
    rfl
  rw [show (List.map (fun p => p.1)
      [([("date", dcell), ("description", cdesc), ("debit", cdeb), ("credit", ccred),
        ("category", ccat), ("remarks", crem), ("account", cacct)], DT)]) =
      [[("date", dcell), ("description", cdesc), ("debit", cdeb),
        ("credit", ccred), ("category", ccat), ("remarks", crem), ("account", cacct)]] from rfl]
  rw [hca]
  rfl

/-- Evaluation of `get_old_transactions` on a single formatted ledger row
with the standard header: the single record that comes back.  The debit
and credit strings are abstract; their parses are hypotheses. -/
theorem getOld_eval_core (inferDate : String → Option DateTime)
    (y m d hh mi se : Nat) (desc sdeb scred cat rem acct : String) (vdeb vcred : Rat)
    (hy : 1 ≤ y ∧ y ≤ 9999) (hmo : 1 ≤ m ∧ m ≤ 12) (hda : 1 ≤ d ∧ d ≤ daysInMonth y m)
    (hdeb : parseAmount (cellify sdeb) = .ok vdeb)
    (hcred : parseAmount (cellify scred) = .ok vcred) :
    getOldTransactions inferDate [EXPECTED_SHEET_COLUMNS,
        [formatDateYMD ⟨y, m, d, hh, mi, se⟩, desc, sdeb, scred, cat, rem, acct]] =
      .ok [(⟨⟨y, m, d, 0, 0, 0⟩, cellify desc, vcred - vdeb,
        cellify cat, cellify rem, cellify acct⟩ : RecTxn)] := by
  have hdne : formatDateYMD ⟨y, m, d, hh, mi, se⟩ ≠ "" := formatDateYMD_ne_empty _
  have hpd : parseMixedDatetime inferDate (some (formatDateYMD ⟨y, m, d, hh, mi, se⟩))
      ["%Y-%m-%d"] = some ⟨y, m, d, 0, 0, 0⟩ := by
    rw [parseMixedDatetime, if_neg hdne]
    simp only [stripQuoteSpace_formatDateYMD]
    rw [tryFormats, strptime_formatYMD hy hmo hda hh mi se]
  have hcd : cellify (formatDateYMD ⟨y, m, d, hh, mi, se⟩) =
      some (formatDateYMD ⟨y, m, d, hh, mi, se⟩) := by
    rw [cellify, if_neg hdne]
  rw [getOldTransactions, if_neg (by simp)]
  simp only [List.headD_cons, List.tail_cons, List.map_cons, List.map_nil, hcd]
  have hzf : List.filter (fun r => !r.all fun p => Option.isNone p.2)
      [EXPECTED_SHEET_COLUMNS.zip [some (formatDateYMD ⟨y, m, d, hh, mi, se⟩),
        cellify desc, cellify sdeb, cellify scred, cellify cat, cellify rem, cellify acct]] =
      [[("Date", some (formatDateYMD ⟨y, m, d, hh, mi, se⟩)), ("Description", cellify desc),
        ("Debit", cellify sdeb), ("Credit", cellify scred), ("Category", cellify cat),
        ("Remarks", cellify rem), ("Account", cellify acct)]] := rfl
  rw [hzf]
  rw [if_neg (by simp)]
  rw [standardize_log_row inferDate (some (formatDateYMD ⟨y, m, d, hh, mi, se⟩))
    (cellify desc) (cellify sdeb) (cellify scred) (cellify cat) (cellify rem) (cellify acct)
    ⟨y, m, d, 0, 0, 0⟩ vdeb vcred hpd hdeb hcred]
  exact congrArg Except.ok (List.mergeSort_singleton _)

/-- `f"{q:.2f}"` on a non-negative exact hundredth count performs no
rounding: the digits of the count come back. -/
theorem formatTwoDec_intDiv (n : Int) (h : 0 ≤ n) :
    formatTwoDec ((n : Rat) / 100) = String.mk (twoDecChars n.natAbs) := by
  have hq : ((n : Rat) / 100) * 100 = ((n : Int) : Rat) := by
    field_simp
  have hneg : ¬ ((n : Rat) / 100 < 0) := by
    push_neg
    exact div_nonneg (by exact_mod_cast h) (by norm_num)
  simp only [formatTwoDec]
  rw [hq, roundHalfEven_intCast, if_neg hneg, List.nil_append]

/-- The `""`-to-`NA` replacement keeps a formatted two-decimal amount. -/
theorem cellify_twoDec (m : Nat) :
    cellify (String.mk (twoDecChars m)) = some (String.mk (twoDecChars m)) := by
  obtain ⟨c, cs, hcons, _⟩ := twoDecChars_cons m
  rw [cellify, if_neg (stringMk_ne_empty (by rw [hcons]; simp))]

/-- A non-empty text cell survives the `""`-to-`NA` replacement. -/
theorem cellify_ne (s : String) (h : s ≠ "") : cellify s = some s := by
  rw [cellify, if_neg h]

/-- C8 (amended): the storage round trip `get_old_transactions ∘
_format_txns_for_storage` preserves date, amount, category and account
for a canonical transaction whose amount is an exact multiple of `0.01`,
whose date has no time-of-day part, and whose category and account are
non-empty; description and remarks come back as `NaN` when empty, as the
stored text otherwise. -/
theorem storage_round_trip_amended (inferDate : String → Option DateTime)
    (y mo d : Nat) (desc cat rem acct : String) (n : Int)
    (hy : 1 ≤ y ∧ y ≤ 9999) (hmo : 1 ≤ mo ∧ mo ≤ 12)
    (hda : 1 ≤ d ∧ d ≤ daysInMonth y mo)
    (hcat : cat ≠ "") (hacc : acct ≠ "") :
    getOldTransactions inferDate (EXPECTED_SHEET_COLUMNS ::
        formatTxnsForStorage [⟨⟨y, mo, d, 0, 0, 0⟩, desc, (n : Rat) / 100, cat, rem, acct⟩]) =
      .ok [⟨⟨y, mo, d, 0, 0, 0⟩, cellify desc, (n : Rat) / 100,
        some cat, cellify rem, some acct⟩] := by
  simp only [formatTxnsForStorage, List.map_cons, List.map_nil]
  rcases lt_or_le n 0 with hn | hn
  · have hlt : ((n : Rat) / 100) < 0 :=
      div_neg_of_neg_of_pos (by exact_mod_cast hn) (by norm_num)
    rw [if_pos hlt, if_pos hlt]
    have hneg2 : -((n : Rat) / 100) = (((-n : Int) : Rat)) / 100 := by
      push_cast
      ring
    rw [hneg2, formatTwoDec_intDiv (-n) (by omega)]
    have hcred0 : parseAmount (cellify "") = .ok 0 := rfl
    have hdebv : parseAmount (cellify (String.mk (twoDecChars (-n).natAbs))) =
        .ok (((-n).natAbs : Rat) / 100) := by
      rw [cellify_twoDec]
      exact parseAmount_twoDecString _
    rw [getOld_eval_core inferDate y mo d 0 0 0 desc
      (String.mk (twoDecChars (-n).natAbs)) "" cat rem acct
      (((-n).natAbs : Rat) / 100) 0 hy hmo hda hdebv hcred0]
    have hamt : (0 : Rat) - ((-n).natAbs : Rat) / 100 = (n : Rat) / 100 := by
      have hna : (((-n).natAbs : Rat)) = -(n : Rat) := by
        rw [Int.cast_natAbs, abs_neg, abs_of_nonpos hn.le, Int.cast_neg]
      rw [hna]
      ring
    rw [hamt, cellify_ne cat hcat, cellify_ne acct hacc]
  · have hlt : ¬ (((n : Rat) / 100) < 0) := by
      push_neg
      exact div_nonneg (by exact_mod_cast hn) (by norm_num)
    rw [if_neg hlt, if_neg hlt]
    rw [formatTwoDec_intDiv n hn]
    have hdeb0 : parseAmount (cellify "") = .ok 0 := rfl
    have hcredv : parseAmount (cellify (String.mk (twoDecChars n.natAbs))) =
        .ok ((n.natAbs : Rat) / 100) := by
      rw [cellify_twoDec]
      exact parseAmount_twoDecString _
    rw [getOld_eval_core inferDate y mo d 0 0 0 desc
      "" (String.mk (twoDecChars n.natAbs)) cat rem acct
      0 ((n.natAbs : Rat) / 100) hy hmo hda hdeb0 hcredv]
    have hamt : (n.natAbs : Rat) / 100 - 0 = (n : Rat) / 100 := by
      have hna : ((n.natAbs : Rat)) = (n : Rat) := by
        rw [Int.cast_natAbs, abs_of_nonneg hn]
      rw [hna]
      ring
    rw [hamt, cellify_ne cat hcat, cellify_ne acct hacc]

/-- C8 (amended) witness at concrete inputs. -/
theorem storage_round_trip_amended_witness :
    ((1 ≤ 2024 ∧ 2024 ≤ 9999) ∧ (1 ≤ 2 ∧ 2 ≤ 12) ∧ (1 ≤ 20 ∧ 20 ≤ daysInMonth 2024 2) ∧
        "Income" ≠ "" ∧ "bank-hdfc-karti" ≠ "") ∧
      getOldTransactions (fun _ => none) (EXPECTED_SHEET_COLUMNS ::
          formatTxnsForStorage
            [⟨⟨2024, 2, 20, 0, 0, 0⟩, "Salary", ((100000 : Int) : Rat) / 100,
              "Income", "", "bank-hdfc-karti"⟩]) =
        .ok [⟨⟨2024, 2, 20, 0, 0, 0⟩, cellify "Salary", ((100000 : Int) : Rat) / 100,
          some "Income", cellify "", some "bank-hdfc-karti"⟩] :=
  ⟨⟨⟨by decide, by decide⟩, ⟨by decide, by decide⟩, ⟨by decide, by decide⟩,
      by decide, by decide⟩,
    storage_round_trip_amended (fun _ => none) 2024 2 20 "Salary" "Income" ""
      "bank-hdfc-karti" 100000 ⟨by decide, by decide⟩ ⟨by decide, by decide⟩
      ⟨by decide, by decide⟩ (by decide) (by decide)⟩

/-- `f"{0.001:.2f}"` rounds to `"0.00"`: the thousandth is lost. -/
theorem formatTwoDec_milli : formatTwoDec (1 / 1000 : Rat) = String.mk (twoDecChars 0) := by
  have h1 : ¬ ((1 / 1000 : Rat) < 0) := by norm_num
  have h2 : ((1 / 1000 : Rat) * 100) = 1 / 10 := by norm_num
  have hf : Int.floor ((1 : Rat) / 10) = 0 := by
    rw [Int.floor_eq_iff]
    norm_num
  have h3 : roundHalfEven ((1 : Rat) / 10) = 0 := by
    simp only [roundHalfEven]
    rw [hf, if_pos (by norm_num)]
  simp only [formatTwoDec]
  rw [h2, h3, if_neg h1, List.nil_append]
  rfl

/-- C8 counterexample: a transaction with amount `0.001` is stored with
credit column `"0.00"` and comes back with amount `0.0`, not an equal
transaction. -/
theorem c8_counterexample :
    getOldTransactions (fun _ => none) (EXPECTED_SHEET_COLUMNS ::
        formatTxnsForStorage
          [⟨⟨2024, 1, 15, 0, 0, 0⟩, "ATM WDL", 1 / 1000, "Food", "", "bank-axis-karti"⟩]) =
      .ok [⟨⟨2024, 1, 15, 0, 0, 0⟩, some "ATM WDL", 0, some "Food",
        none, some "bank-axis-karti"⟩] ∧
    ((0 : Rat) ≠ 1 / 1000) := by
  refine ⟨?_, by norm_num⟩
  simp only [formatTxnsForStorage, List.map_cons, List.map_nil]
  have hlt : ¬ ((1 / 1000 : Rat) < 0) := by norm_num
  rw [if_neg hlt, if_neg hlt, formatTwoDec_milli]
  have hdeb0 : parseAmount (cellify "") = .ok 0 := rfl
  have hcredv : parseAmount (cellify (String.mk (twoDecChars 0))) =
      .ok (((0 : Nat) : Rat) / 100) := by
    rw [cellify_twoDec]
    exact parseAmount_twoDecString _
  rw [getOld_eval_core (fun _ => none) 2024 1 15 0 0 0 "ATM WDL"
    "" (String.mk (twoDecChars 0)) "Food" "" "bank-axis-karti"
    0 (((0 : Nat) : Rat) / 100) ⟨by decide, by decide⟩ ⟨by decide, by decide⟩
    ⟨by decide, by decide⟩ hdeb0 hcredv]
  have hamt : ((0 : Nat) : Rat) / 100 - 0 = 0 := by norm_num
  rw [hamt]
  rfl

/-- C9 (amended) witness at concrete inputs. -/
theorem find_new_txns_mutation_amended_witness :
    (findNewTxns [sampleTxnA] [sampleTxnB]).2 = [sampleTxnB] ∧
      (findNewTxns [] [sampleTxnB, sampleTxnA]).2 = sortTxns [sampleTxnB, sampleTxnA] :=
  ⟨(find_new_txns_mutation_amended [sampleTxnA] [sampleTxnB]).1 (Or.inl (by simp)),
    (find_new_txns_mutation_amended [] [sampleTxnB, sampleTxnA]).2 rfl (by simp)⟩

end Gajana
